import Mathlib

/-!
Verification of the VeilNet authority / transaction-validation core.

This file shallowly embeds the Python sources of the repository
(`core/seal.py`, `core/encryption.py`, `core/transaction.py`,
`core/state.py`, `node/validator.py`, `node/mempool.py`, `storage/db.py`)
as executable Lean definitions and proves or refutes the frozen claims
about them.  Bytes are `List Nat` with each element in `0..255`; machine
arithmetic is `Nat`/`Int` with explicit reductions mod `2^32` where the
underlying primitive wraps.  Python exceptions are modelled with `Option`
or `Except`.

The cryptographic primitives the sources call out to
(`hashlib.sha256`, HKDF-SHA256, AES-256-GCM, `base64`) are implemented
here in full, FIPS 180-4 / RFC 5869 / SP 800-38D faithful, so that every
claim can be evaluated on concrete inputs by the kernel.
-/

set_option maxRecDepth 100000

namespace Veilnet

/-! ## Bytes and 32-bit words -/

/-- Byte strings: each element is a byte in `0..255`. -/
abbrev Bytes := List Nat

/-- `2^32`, the modulus of the 32-bit words SHA-256 and AES counters use. -/
def M32 : Nat := 4294967296

/-- Wrapping 32-bit addition. -/
def add32 (a b : Nat) : Nat := (a + b) % M32

/-- Right rotation of a 32-bit word. -/
def rotr32 (x n : Nat) : Nat := ((x >>> n) ||| (x <<< (32 - n))) % M32

/-- Bitwise complement of a 32-bit word. -/
def not32 (x : Nat) : Nat := 4294967295 ^^^ x

/-- Big-endian 4-byte serialization of a 32-bit word. -/
def be4 (w : Nat) : Bytes := [w / 16777216 % 256, w / 65536 % 256, w / 256 % 256, w % 256]

/-- Big-endian 8-byte serialization of a 64-bit length field. -/
def be8 (n : Nat) : Bytes := be4 (n / M32 % M32) ++ be4 (n % M32)

/-- Big-endian reading of a byte string as one natural number. -/
def beNat (bs : Bytes) : Nat := bs.foldl (fun a b => a * 256 + b) 0

/-! ## SHA-256 (FIPS 180-4) -/

/-- The eight SHA-256 initial hash values. -/
def shaH0 : List Nat :=
  [0x6a09e667, 0xbb67ae85, 0x3c6ef372, 0xa54ff53a,
   0x510e527f, 0x9b05688c, 0x1f83d9ab, 0x5be0cd19]

/-- The 64 SHA-256 round constants `K`, packed big-endian into one number
(`K 0` in the top 32 bits). -/
def shaKPacked : Nat := 0x428a2f9871374491b5c0fbcfe9b5dba53956c25b59f111f1923f82a4ab1c5ed5d807aa9812835b01243185be550c7dc372be5d7480deb1fe9bdc06a7c19bf174e49b69c1efbe47860fc19dc6240ca1cc2de92c6f4a7484aa5cb0a9dc76f988da983e5152a831c66db00327c8bf597fc7c6e00bf3d5a7914706ca63511429296727b70a852e1b21384d2c6dfc53380d13650a7354766a0abb81c2c92e92722c85a2bfe8a1a81a664bc24b8b70c76c51a3d192e819d6990624f40e3585106aa07019a4c1161e376c082748774c34b0bcb5391c0cb34ed8aa4a5b9cca4f682e6ff3748f82ee78a5636f84c878148cc7020890befffaa4506cebbef9a3f7c67178f2

/-- The 64 SHA-256 round constants, unpacked in order. -/
def shaK : List Nat :=
  (List.range 64).map (fun i => shaKPacked >>> (32 * (63 - i)) &&& 0xffffffff)

/-- `Ch(x,y,z)`. -/
def shaCh (x y z : Nat) : Nat := (x &&& y) ^^^ (not32 x &&& z)

/-- `Maj(x,y,z)`. -/
def shaMaj (x y z : Nat) : Nat := (x &&& y) ^^^ (x &&& z) ^^^ (y &&& z)

/-- Big sigma 0. -/
def bsig0 (x : Nat) : Nat := rotr32 x 2 ^^^ rotr32 x 13 ^^^ rotr32 x 22

/-- Big sigma 1. -/
def bsig1 (x : Nat) : Nat := rotr32 x 6 ^^^ rotr32 x 11 ^^^ rotr32 x 25

/-- Small sigma 0. -/
def ssig0 (x : Nat) : Nat := rotr32 x 7 ^^^ rotr32 x 18 ^^^ (x >>> 3)

/-- Small sigma 1. -/
def ssig1 (x : Nat) : Nat := rotr32 x 17 ^^^ rotr32 x 19 ^^^ (x >>> 10)

/-- The eight-word SHA-256 working state. -/
structure Sha8 where
  a : Nat
  b : Nat
  c : Nat
  d : Nat
  e : Nat
  f : Nat
  g : Nat
  h : Nat
deriving DecidableEq

/-- The initial state as a `Sha8`. -/
def shaInit : Sha8 :=
  ⟨0x6a09e667, 0xbb67ae85, 0x3c6ef372, 0xa54ff53a,
   0x510e527f, 0x9b05688c, 0x1f83d9ab, 0x5be0cd19⟩

/-- One SHA-256 round with round constant `k` and schedule word `w`. -/
def shaRound (s : Sha8) (kw : Nat × Nat) : Sha8 :=
  let t1 := (s.h + bsig1 s.e + shaCh s.e s.f s.g + kw.1 + kw.2) % M32
  let t2 := (bsig0 s.a + shaMaj s.a s.b s.c) % M32
  ⟨add32 t1 t2, s.a, s.b, s.c, add32 s.d t1, s.e, s.f, s.g⟩

/-- Extend the (reversed) message schedule by `n` words: with the newest word
first, `W[t-2]` is at index 1, `W[t-7]` at 6, `W[t-15]` at 14, `W[t-16]` at 15. -/
def shaExtend : List Nat → Nat → List Nat
  | wrev, 0 => wrev
  | wrev, n + 1 =>
      let w := (ssig1 (wrev.getD 1 0) + wrev.getD 6 0
                + ssig0 (wrev.getD 14 0) + wrev.getD 15 0) % M32
      shaExtend (w :: wrev) n

/-- Group a byte string into big-endian 32-bit words, four bytes at a time. -/
def wordsOf : Bytes → List Nat
  | b0 :: b1 :: b2 :: b3 :: rest => (((b0 * 256 + b1) * 256 + b2) * 256 + b3) :: wordsOf rest
  | _ => []

/-- Compress one block given as its first 16 schedule words. -/
def shaCompress (s : Sha8) (block : List Nat) : Sha8 :=
  let ws := (shaExtend block.reverse 48).reverse
  let t := (shaK.zip ws).foldl shaRound s
  ⟨add32 s.a t.a, add32 s.b t.b, add32 s.c t.c, add32 s.d t.d,
   add32 s.e t.e, add32 s.f t.f, add32 s.g t.g, add32 s.h t.h⟩

/-- Run the compression function over a word stream, 16 words per block; the
fuel argument is structural and any fuel at least the word count suffices. -/
def shaBlocksF : Nat → Sha8 → List Nat → Sha8
  | 0, s, _ => s
  | fuel + 1, s, ws =>
      if ws.isEmpty then s
      else shaBlocksF fuel (shaCompress s (ws.take 16)) (ws.drop 16)

/-- Run the compression function over a whole word stream. -/
def shaBlocks (s : Sha8) (ws : List Nat) : Sha8 := shaBlocksF ws.length s ws

/-- SHA-256 padding: `0x80`, zeros, then the 64-bit big-endian bit length. -/
def shaPad (msg : Bytes) : Bytes :=
  let len := msg.length
  msg ++ 0x80 :: List.replicate ((120 - (len + 1) % 64) % 64) 0 ++ be8 (8 * len)

/-- Serialize the final state as the 32 digest bytes. -/
def shaStateBytes (s : Sha8) : Bytes :=
  be4 s.a ++ be4 s.b ++ be4 s.c ++ be4 s.d ++ be4 s.e ++ be4 s.f ++ be4 s.g ++ be4 s.h

/-- `hashlib.sha256(msg).digest()`: the 32-byte SHA-256 digest of `msg`. -/
def sha256 (msg : Bytes) : Bytes :=
  shaStateBytes (shaBlocks shaInit (wordsOf (shaPad msg)))

/-- A SHA-256 digest is exactly 32 bytes. -/
theorem sha256_length (msg : Bytes) : (sha256 msg).length = 32 := by
  simp [sha256, shaStateBytes, be4]

/-- FIPS 180-4 known-answer test: the digest of the empty message. -/
example : sha256 [] =
    [0xe3, 0xb0, 0xc4, 0x42, 0x98, 0xfc, 0x1c, 0x14, 0x9a, 0xfb, 0xf4, 0xc8,
     0x99, 0x6f, 0xb9, 0x24, 0x27, 0xae, 0x41, 0xe4, 0x64, 0x9b, 0x93, 0x4c,
     0xa4, 0x95, 0x99, 0x1b, 0x78, 0x52, 0xb8, 0x55] := by decide

/-- FIPS 180-4 known-answer test: the digest of `"abc"`. -/
example : sha256 [0x61, 0x62, 0x63] =
    [0xba, 0x78, 0x16, 0xbf, 0x8f, 0x01, 0xcf, 0xea, 0x41, 0x41, 0x40, 0xde,
     0x5d, 0xae, 0x22, 0x23, 0xb0, 0x03, 0x61, 0xa3, 0x96, 0x17, 0x7a, 0x9c,
     0xb4, 0x10, 0xff, 0x61, 0xf2, 0x00, 0x15, 0xad] := by decide

/-! ## HMAC-SHA256 (FIPS 198-1) and HKDF-SHA256 (RFC 5869) -/

/-- HMAC-SHA256: keys longer than the 64-byte block are hashed first, then
zero-padded; inner pad `0x36`, outer pad `0x5c`. -/
def hmacSha256 (key msg : Bytes) : Bytes :=
  let k0 := if 64 < key.length then sha256 key else key
  let kp := k0 ++ List.replicate (64 - k0.length) 0
  sha256 ((kp.map (fun b => b ^^^ 0x5c)) ++ sha256 ((kp.map (fun b => b ^^^ 0x36)) ++ msg))

/-- HKDF-SHA256 producing exactly 32 bytes of output key material: extract to a
pseudorandom key, then a single expand round `T(1) = HMAC(PRK, info || 0x01)`. -/
def hkdfSha256_32 (salt ikm info : Bytes) : Bytes :=
  hmacSha256 (hmacSha256 salt ikm) (info ++ [1])

/-- The code points of an ASCII string as bytes (every string the sources feed
through `.encode()` here is ASCII, where UTF-8 is the identity on code points). -/
def strBytes (s : String) : Bytes := s.toList.map Char.toNat

/-- RFC 4231 test case 1 for HMAC-SHA256. -/
example : hmacSha256 (List.replicate 20 0x0b) (strBytes "Hi There") =
    [0xb0, 0x34, 0x4c, 0x61, 0xd8, 0xdb, 0x38, 0x53, 0x5c, 0xa8, 0xaf, 0xce,
     0xaf, 0x0b, 0xf1, 0x2b, 0x88, 0x1d, 0xc2, 0x00, 0xc9, 0x83, 0x3d, 0xa7,
     0x26, 0xe9, 0x37, 0x6c, 0x2e, 0x32, 0xcf, 0xf7] := by decide

/-! ## AES-256 (FIPS 197) -/

/-- Multiplication by `x` in GF(2^8) modulo the AES polynomial `0x11b`. -/
def xtime (a : Nat) : Nat :=
  if a &&& 0x80 = 0 then (a <<< 1) &&& 0xff else ((a <<< 1) ^^^ 0x11b) &&& 0xff

/-- GF(2^8) product by shift-and-add; the fuel is the 8 bits of `b`. -/
def gmulAux : Nat → Nat → Nat → Nat
  | 0, _, _ => 0
  | n + 1, a, b => (if b &&& 1 = 1 then a else 0) ^^^ gmulAux n (xtime a) (b >>> 1)

/-- GF(2^8) product. -/
def gmul (a b : Nat) : Nat := gmulAux 8 a b

/-- The GF(2^8) inverse as `a^254` (0 at 0), by the squaring chain
`254 = 2 + 4 + 8 + 16 + 32 + 64 + 128`. -/
def ginv (a : Nat) : Nat :=
  let a2 := gmul a a
  let a4 := gmul a2 a2
  let a8 := gmul a4 a4
  let a16 := gmul a8 a8
  let a32 := gmul a16 a16
  let a64 := gmul a32 a32
  let a128 := gmul a64 a64
  gmul a2 (gmul a4 (gmul a8 (gmul a16 (gmul a32 (gmul a64 a128)))))

/-- Left rotation of a byte. -/
def rotl8 (x n : Nat) : Nat := ((x <<< n) ||| (x >>> (8 - n))) &&& 0xff

/-- The AES S-box from its definition: the GF(2^8) inverse followed by the
affine transform. -/
def sboxCalc (x : Nat) : Nat :=
  let i := ginv x
  i ^^^ rotl8 i 1 ^^^ rotl8 i 2 ^^^ rotl8 i 3 ^^^ rotl8 i 4 ^^^ 0x63

/-- The 256 S-box bytes packed into one number, byte `i` at bit `8*i`. -/
def sboxPacked : Nat :=
  0x16bb54b00f2d99416842e6bf0d89a18cdf2855cee9871e9b948ed9691198f8e19e1dc186b95735610ef6034866b53e708a8bbd4b1f74dde8c6b4a61c2e2578ba08ae7a65eaf4566ca94ed58d6d37c8e779e4959162acd3c25c2406490a3a32e0db0b5ede14b8ee4688902a22dc4f816073195d643d7ea7c41744975fec130ccdd2f3ff1021dab6bcf5389d928f40a351a89f3c507f02f94585334d43fbaaefd0cf584c4a39becb6a5bb1fc20ed00d153842fe329b3d63b52a05a6e1b1a2c830975b227ebe28012079a059618c323c7041531d871f1e5a534ccf73f362693fdb7c072a49cafa2d4adf04759fa7dc982ca76abd7fe2b670130c56f6bf27b777c63

/-- S-box lookup from the packed table. -/
def sbox (x : Nat) : Nat := (sboxPacked >>> (8 * (x % 256))) &&& 0xff

/-- The packed S-box table agrees with the S-box computed from the field. -/
theorem sbox_packed_correct : ∀ x : Fin 256, sbox x.val = sboxCalc x.val := by decide

/-- S-box applied to each byte of a 32-bit word. -/
def subWord (w : Nat) : Nat :=
  (sbox (w >>> 24) <<< 24) ||| (sbox ((w >>> 16) &&& 0xff) <<< 16) |||
    (sbox ((w >>> 8) &&& 0xff) <<< 8) ||| sbox (w &&& 0xff)

/-- Left rotation of a 32-bit word by one byte. -/
def rotWord (w : Nat) : Nat := ((w <<< 8) ||| (w >>> 24)) &&& 0xffffffff

/-- The AES round constants `Rcon[j]` (byte form). -/
def rcon (j : Nat) : Nat := [0, 1, 2, 4, 8, 16, 32, 64].getD j 0

/-- AES-256 key expansion, accumulated newest word first: `w[i-1]` is at
index 0 and `w[i-8]` at index 7 of the reversed list. -/
def keyExpandAux : List Nat → Nat → Nat → List Nat
  | wrev, _, 0 => wrev
  | wrev, i, n + 1 =>
      let temp := wrev.getD 0 0
      let t :=
        if i % 8 = 0 then subWord (rotWord temp) ^^^ (rcon (i / 8) <<< 24)
        else if i % 8 = 4 then subWord temp
        else temp
      keyExpandAux ((wrev.getD 7 0 ^^^ t) :: wrev) (i + 1) n

/-- The 60 expanded key words of a 32-byte AES-256 key. -/
def keyExpand (key : Bytes) : List Nat :=
  (keyExpandAux (wordsOf key).reverse 8 52).reverse

/-- The 16 bytes of round key `r`: words `w[4r..4r+3]`, big-endian per word. -/
def roundKeyBytes (ws : List Nat) (r : Nat) : Bytes :=
  be4 (ws.getD (4 * r) 0) ++ be4 (ws.getD (4 * r + 1) 0) ++
    be4 (ws.getD (4 * r + 2) 0) ++ be4 (ws.getD (4 * r + 3) 0)

/-- Bytewise XOR of two byte strings (truncates to the shorter). -/
def zipXor (a b : Bytes) : Bytes := List.zipWith (fun x y => x ^^^ y) a b

/-- ShiftRows on the 16-byte state in block order (`state[r][c] = s[r + 4c]`). -/
def shiftRows : Bytes → Bytes
  | [a0, a1, a2, a3, a4, a5, a6, a7, a8, a9, a10, a11, a12, a13, a14, a15] =>
      [a0, a5, a10, a15, a4, a9, a14, a3, a8, a13, a2, a7, a12, a1, a6, a11]
  | s => s

/-- MixColumns on one column. -/
def mixCol (a b c d : Nat) : Bytes :=
  [xtime a ^^^ (xtime b ^^^ b) ^^^ c ^^^ d,
   a ^^^ xtime b ^^^ (xtime c ^^^ c) ^^^ d,
   a ^^^ b ^^^ xtime c ^^^ (xtime d ^^^ d),
   (xtime a ^^^ a) ^^^ b ^^^ c ^^^ xtime d]

/-- MixColumns on the 16-byte state. -/
def mixColumns : Bytes → Bytes
  | [a0, a1, a2, a3, a4, a5, a6, a7, a8, a9, a10, a11, a12, a13, a14, a15] =>
      mixCol a0 a1 a2 a3 ++ mixCol a4 a5 a6 a7 ++ mixCol a8 a9 a10 a11 ++ mixCol a12 a13 a14 a15
  | s => s

/-- AES-256 block encryption: initial AddRoundKey, 13 full rounds, and the
final round without MixColumns. -/
def aes256Encrypt (key block : Bytes) : Bytes :=
  let ws := keyExpand key
  let s0 := zipXor block (roundKeyBytes ws 0)
  let smid := (List.range 13).foldl
    (fun s i => zipXor (mixColumns (shiftRows (s.map sbox))) (roundKeyBytes ws (i + 1))) s0
  zipXor (shiftRows (smid.map sbox)) (roundKeyBytes ws 14)

/-- FIPS 197 appendix C.3 known-answer test for AES-256. -/
example : aes256Encrypt
    [0x00, 0x01, 0x02, 0x03, 0x04, 0x05, 0x06, 0x07, 0x08, 0x09, 0x0a, 0x0b,
     0x0c, 0x0d, 0x0e, 0x0f, 0x10, 0x11, 0x12, 0x13, 0x14, 0x15, 0x16, 0x17,
     0x18, 0x19, 0x1a, 0x1b, 0x1c, 0x1d, 0x1e, 0x1f]
    [0x00, 0x11, 0x22, 0x33, 0x44, 0x55, 0x66, 0x77, 0x88, 0x99, 0xaa, 0xbb,
     0xcc, 0xdd, 0xee, 0xff] =
    [0x8e, 0xa2, 0xb7, 0xca, 0x51, 0x67, 0x45, 0xbf, 0xea, 0xfc, 0x49, 0x90,
     0x4b, 0x49, 0x60, 0x89] := by decide

/-! ## AES-GCM (NIST SP 800-38D), as the `cryptography` package's `AESGCM`
with no associated data and a 12-byte nonce -/

/-- The GHASH reduction constant `R = 0xe1 · 2^120`. -/
def gfR : Nat := 0xe1 <<< 120

/-- One GF(2^128) product `X • H`, bits of `X` processed most significant
first; the fuel counts the remaining bits. -/
def gfMulAux : Nat → Nat → Nat → Nat → Nat
  | 0, _, _, z => z
  | n + 1, x, v, z =>
      gfMulAux n x (if v &&& 1 = 1 then (v >>> 1) ^^^ gfR else v >>> 1)
        (if (x >>> n) &&& 1 = 1 then z ^^^ v else z)

/-- GF(2^128) product. -/
def gfMul (x h : Nat) : Nat := gfMulAux 128 x h 0

/-- GHASH over a list of 128-bit blocks. -/
def ghash (h : Nat) (blocks : List Nat) : Nat :=
  blocks.foldl (fun y b => gfMul (y ^^^ b) h) 0

/-- Split bytes into 128-bit blocks, zero-padding the last; fuel-driven. -/
def blocks16F : Nat → Bytes → List Nat
  | 0, _ => []
  | _, [] => []
  | n + 1, l =>
      beNat (l.take 16 ++ List.replicate (16 - (l.take 16).length) 0) :: blocks16F n (l.drop 16)

/-- Split bytes into zero-padded 128-bit blocks. -/
def blocks16 (l : Bytes) : List Nat := blocks16F l.length l

/-- Big-endian 16-byte serialization of a 128-bit number. -/
def be16 (n : Nat) : Bytes := (List.range 16).map (fun i => (n >>> (8 * (15 - i))) &&& 0xff)

/-- `inc32` on a 16-byte counter block. -/
def inc32 (b : Bytes) : Bytes := b.take 12 ++ be4 ((beNat (b.drop 12) + 1) % M32)

/-- `inc32` iterated. -/
def inc32Iter : Nat → Bytes → Bytes
  | 0, b => b
  | n + 1, b => inc32Iter n (inc32 b)

/-- The pre-counter block `J0` of a 12-byte IV. -/
def gcmJ0 (iv : Bytes) : Bytes := iv ++ [0, 0, 0, 1]

/-- `n` bytes of GCM CTR keystream: byte `i` is byte `i % 16` of the block
cipher applied to the `(i / 16 + 1)`-th increment of `J0`. -/
def gcmKeystream (key iv : Bytes) (n : Nat) : Bytes :=
  (List.range n).map
    (fun i => (aes256Encrypt key (inc32Iter (i / 16 + 1) (gcmJ0 iv))).getD (i % 16) 0)

/-- The 16-byte GCM authentication tag over a ciphertext (no associated
data): `GHASH` of the padded ciphertext and the length block, encrypted
with the counter `J0`. -/
def gcmTag (key iv ct : Bytes) : Bytes :=
  let h := beNat (aes256Encrypt key (List.replicate 16 0))
  let s := ghash h (blocks16 ct ++ [8 * ct.length])
  be16 (beNat (aes256Encrypt key (gcmJ0 iv)) ^^^ s)

/-- `AESGCM(key).encrypt(nonce, data, None)`: ciphertext with the tag
appended. -/
def aesgcmEncrypt (key nonce data : Bytes) : Bytes :=
  zipXor data (gcmKeystream key nonce data.length) ++
    gcmTag key nonce (zipXor data (gcmKeystream key nonce data.length))

/-- `AESGCM(key).decrypt(nonce, ct_with_tag, None)`: recompute the tag over
the ciphertext, fail (`InvalidTag`) unless it matches, else decrypt. -/
def aesgcmDecrypt (key nonce ctag : Bytes) : Option Bytes :=
  if ctag.length < 16 then none
  else
    let ct := ctag.take (ctag.length - 16)
    let tag := ctag.drop (ctag.length - 16)
    if gcmTag key nonce ct = tag then some (zipXor ct (gcmKeystream key nonce ct.length))
    else none

namespace PayloadEncryptor

/-- `PayloadEncryptor.derive_key_from_seal`: HKDF-SHA256 over the seal private
key bytes with the fixed salt and info strings hardcoded in `encryption.py`. -/
def derive_key_from_seal (seal_private_key_bytes : Bytes) : Bytes :=
  hkdfSha256_32 (strBytes "veilnet-encryption-salt") seal_private_key_bytes
    (strBytes "payload-encryption-key")

/-- The 12-byte GCM nonce size from `encryption.py`. -/
def NONCE_SIZE : Nat := 12

/-- The 16-byte GCM tag size from `encryption.py`. -/
def TAG_SIZE : Nat := 16

/-- The two `ValueError`s `PayloadEncryptor.decrypt` raises: the explicit
length-check failure, and the wrapped GCM `InvalidTag`. -/
inductive DecryptionError where
  | invalidFormat
  | decryptionFailed
deriving DecidableEq

/-- `PayloadEncryptor.encrypt`: AES-256-GCM, returning `nonce || ciphertext ||
tag`; the nonce `os.urandom` draws is passed explicitly here. -/
def encrypt (data key nonce : Bytes) : Bytes :=
  nonce ++ aesgcmEncrypt key nonce data

/-- `PayloadEncryptor.decrypt`: reject blobs shorter than nonce plus tag,
split the 12-byte nonce off, and authenticate-decrypt the rest. -/
def decrypt (encrypted_data key : Bytes) : Except DecryptionError Bytes :=
  if encrypted_data.length < NONCE_SIZE + TAG_SIZE then .error .invalidFormat
  else
    match aesgcmDecrypt key (encrypted_data.take NONCE_SIZE) (encrypted_data.drop NONCE_SIZE) with
    | some pt => .ok pt
    | none => .error .decryptionFailed

end PayloadEncryptor

/-! ## Base64 (CPython `base64.b64encode` / `b64decode`, `validate=False`) -/

/-- One lowercase hex digit. -/
def hexDigit (n : Nat) : Char := Char.ofNat (if n < 10 then 48 + n else 87 + n)

/-- Lowercase hex of a byte string, as `bytes.hex()) / hexdigest()` print it. -/
def hexOfBytes (bs : Bytes) : String :=
  String.mk (bs.foldr (fun b acc => hexDigit (b / 16 % 16) :: hexDigit (b % 16) :: acc) [])

/-- The value of a standard-alphabet base64 character, `none` outside it. -/
def b64Val (c : Char) : Option Nat :=
  let n := c.toNat
  if 65 ≤ n ∧ n ≤ 90 then some (n - 65)
  else if 97 ≤ n ∧ n ≤ 122 then some (n - 71)
  else if 48 ≤ n ∧ n ≤ 57 then some (n + 4)
  else if n = 43 then some 62
  else if n = 47 then some 63
  else none

/-- The standard-alphabet character of a 6-bit value. -/
def b64Char (n : Nat) : Char :=
  if n < 26 then Char.ofNat (65 + n)
  else if n < 52 then Char.ofNat (97 + n - 26)
  else if n < 62 then Char.ofNat (48 + n - 52)
  else if n = 62 then Char.ofNat 43
  else Char.ofNat 47

/-- Encode bytes three at a time, padding the final group with `=`. -/
def b64EncodeChunks : Bytes → List Char
  | [] => []
  | [b0] => [b64Char (b0 >>> 2), b64Char ((b0 &&& 3) <<< 4), Char.ofNat 61, Char.ofNat 61]
  | [b0, b1] =>
      [b64Char (b0 >>> 2), b64Char (((b0 &&& 3) <<< 4) ||| (b1 >>> 4)),
       b64Char ((b1 &&& 15) <<< 2), Char.ofNat 61]
  | b0 :: b1 :: b2 :: rest =>
      b64Char (b0 >>> 2) :: b64Char (((b0 &&& 3) <<< 4) ||| (b1 >>> 4)) ::
        b64Char (((b1 &&& 15) <<< 2) ||| (b2 >>> 6)) :: b64Char (b2 &&& 63) ::
        b64EncodeChunks rest

/-- `base64.b64encode(bs).decode()`. -/
def b64encode (bs : Bytes) : String := String.mk (b64EncodeChunks bs)

/-- CPython `binascii.a2b_base64` in its default non-strict mode, one input
character at a time. `quadPos` counts the data characters consumed in the
current group of four, `leftchar` their leftover bits, `pads` the `=` run
since the last data character, `acc` the bytes emitted so far. Characters
outside the alphabet are skipped; a `=` is skipped before two data
characters of a group have arrived, and once `quadPos + pads` reaches four
it finishes decoding, discarding all remaining input; input that ends
mid-group is the `binascii.Error` (one-more-than-a-multiple-of-four at
`quadPos = 1`, `Incorrect padding` at 2 or 3), modelled as `none`. -/
def a2bBase64 : List Char → Nat → Nat → Nat → Bytes → Option Bytes
  | [], quadPos, _, _, acc => if quadPos = 0 then some acc else none
  | c :: rest, quadPos, leftchar, pads, acc =>
      if c.toNat = 61 then
        if 2 ≤ quadPos then
          if 4 ≤ quadPos + (pads + 1) then some acc
          else a2bBase64 rest quadPos leftchar (pads + 1) acc
        else a2bBase64 rest quadPos leftchar pads acc
      else
        match b64Val c with
        | none => a2bBase64 rest quadPos leftchar pads acc
        | some v =>
            match quadPos with
            | 0 => a2bBase64 rest 1 v 0 acc
            | 1 => a2bBase64 rest 2 (v % 16) 0 (acc ++ [leftchar * 4 + v / 16])
            | 2 => a2bBase64 rest 3 (v % 4) 0 (acc ++ [leftchar * 16 + v / 4])
            | _ => a2bBase64 rest 0 0 0 (acc ++ [leftchar * 64 + v])

/-- `base64.b64decode(s)` with the default `validate=False`: no alphabet
check, straight into `binascii.a2b_base64`. -/
def b64decode (s : String) : Option Bytes := a2bBase64 s.toList 0 0 0 []

/-- Base64 sanity: a canonical round trip, data after skipped or short
padding, early termination at a completed pad group, and the two error
shapes — each matching CPython `base64.b64decode` byte for byte. -/
example : b64encode (strBytes "hi!") = "aGkh" ∧
    b64decode "aGkh" = some (strBytes "hi!") ∧
    b64decode "ab==" = some [0x69] ∧
    b64decode "abcd=" = some [0x69, 0xb7, 0x1d] ∧
    b64decode "=" = some [] ∧
    b64decode "=abc" = none ∧
    b64decode "ab==cdef" = some [0x69] ∧
    b64decode "a" = none ∧ b64decode "" = some [] := by decide

/-! ## JSON values and `json.dumps(..., sort_keys=True)`

Arrays and objects are mutual inductives (rather than nested `List`s) so that
every function over them is structurally recursive and kernel-reducible. -/

mutual
/-- A JSON value as CPython's `json` serializes it (floats are not modelled:
no payload the sources construct carries one). -/
inductive JValue where
  | null
  | bool (b : Bool)
  | int (n : Int)
  | str (s : String)
  | arr (xs : JArr)
  | obj (fs : JObj)
deriving DecidableEq

/-- A JSON array. -/
inductive JArr where
  | nil
  | cons (v : JValue) (rest : JArr)
deriving DecidableEq

/-- A JSON object, fields in insertion order like a Python dict. -/
inductive JObj where
  | nil
  | cons (k : String) (v : JValue) (rest : JObj)
deriving DecidableEq
end

/-- A JSON object from an association list. -/
def JObj.ofList : List (String × JValue) → JObj
  | [] => .nil
  | (k, v) :: rest => .cons k v (JObj.ofList rest)

/-- A JSON object back to an association list. -/
def JObj.toList : JObj → List (String × JValue)
  | .nil => []
  | .cons k v rest => (k, v) :: JObj.toList rest

/-- Four hex digits, for `\uXXXX` escapes. -/
def u4hex (n : Nat) : List Char :=
  [hexDigit (n / 4096 % 16), hexDigit (n / 256 % 16), hexDigit (n / 16 % 16), hexDigit (n % 16)]

/-- One character as CPython `json` with `ensure_ascii=True` emits it:
short escapes for the usual controls, `\uXXXX` (with surrogate pairs beyond
the BMP) for everything outside `0x20..0x7e`. -/
def escChar (c : Char) : List Char :=
  let n := c.toNat
  if n = 34 then [Char.ofNat 92, Char.ofNat 34]
  else if n = 92 then [Char.ofNat 92, Char.ofNat 92]
  else if n = 8 then [Char.ofNat 92, Char.ofNat 98]
  else if n = 9 then [Char.ofNat 92, Char.ofNat 116]
  else if n = 10 then [Char.ofNat 92, Char.ofNat 110]
  else if n = 12 then [Char.ofNat 92, Char.ofNat 102]
  else if n = 13 then [Char.ofNat 92, Char.ofNat 114]
  else if n < 32 ∨ 126 < n then
    if n < 65536 then Char.ofNat 92 :: Char.ofNat 117 :: u4hex n
    else
      (Char.ofNat 92 :: Char.ofNat 117 :: u4hex (55296 + (n - 65536) / 1024)) ++
        (Char.ofNat 92 :: Char.ofNat 117 :: u4hex (56320 + (n - 65536) % 1024))
  else [c]

/-- A JSON string literal with its quotes. -/
def jsonEscape (s : String) : String :=
  String.mk (Char.ofNat 34 :: s.toList.foldr (fun c acc => escChar c ++ acc) [Char.ofNat 34])

/-- Code-point lexicographic comparison, as Python compares `str`. -/
def charListLt : List Char → List Char → Bool
  | [], [] => false
  | [], _ :: _ => true
  | _ :: _, [] => false
  | a :: ra, b :: rb =>
      if a.toNat < b.toNat then true
      else if b.toNat < a.toNat then false
      else charListLt ra rb

/-- String order used by `sort_keys=True`. -/
def strLt (a b : String) : Bool := charListLt a.toList b.toList

/-- Stable insertion into a key-sorted list of serialized fields. -/
def insertPair (p : String × String) : List (String × String) → List (String × String)
  | [] => [p]
  | q :: rest => if strLt p.1 q.1 then p :: q :: rest else q :: insertPair p rest

/-- Stable insertion sort of serialized fields by key. -/
def sortPairs : List (String × String) → List (String × String)
  | [] => []
  | p :: rest => insertPair p (sortPairs rest)

mutual
/-- `json.dumps(v, sort_keys=True)` with the default separators `", "` and
`": "`: keys of every object are emitted in sorted order. -/
def dumpVal : JValue → String
  | .null => "null"
  | .bool true => "true"
  | .bool false => "false"
  | .int n => toString n
  | .str s => jsonEscape s
  | .arr xs => "[" ++ String.intercalate ", " (dumpArr xs) ++ "]"
  | .obj fs =>
      "\x7b" ++
        String.intercalate ", "
          ((sortPairs (dumpObj fs)).map (fun p => jsonEscape p.1 ++ ": " ++ p.2)) ++
        "\x7d"

/-- Serialize each array element. -/
def dumpArr : JArr → List String
  | .nil => []
  | .cons v r => dumpVal v :: dumpArr r

/-- Serialize each object field's value, keeping its key. -/
def dumpObj : JObj → List (String × String)
  | .nil => []
  | .cons k v r => (k, dumpVal v) :: dumpObj r
end

/-- Serializer sanity: sorted keys, default separators, escapes. -/
example : dumpVal (.obj (JObj.ofList
      [("b", .int (-2)), ("a", .arr (.cons (.str "x\"y") (.cons .null .nil)))])) =
    "\x7b\"a\": [\"x\\\"y\", null], \"b\": -2\x7d" := by decide

/-! ## Transactions (`core/transaction.py`) -/

/-- `TransactionType`, a string-valued enum. -/
inductive TransactionType where
  | data
  | token_transfer
  | seal_rotation
  | contract_deploy
  | contract_execute
deriving DecidableEq

/-- The string value of a transaction type, as JSON serializes the enum. -/
def TransactionType.value : TransactionType → String
  | .data => "data"
  | .token_transfer => "token_transfer"
  | .seal_rotation => "seal_rotation"
  | .contract_deploy => "contract_deploy"
  | .contract_execute => "contract_execute"

/-- `TransactionPayload`: optional cleartext dict, optional encrypted bytes,
metadata dict, and the creation timestamp. Dicts are association lists in
insertion order with unique keys, values arbitrary JSON. -/
structure TransactionPayload where
  type : TransactionType
  data : Option (List (String × JValue)) := none
  encrypted_data : Option Bytes := none
  metadata : List (String × JValue) := []
  timestamp : Nat := 0
deriving DecidableEq

/-- `Transaction`: the signed vessel. `nonce` is the Python int (all nonces
the system stores are naturals), `version` the string `"1.0"` by default. -/
structure Transaction where
  public_key : String
  seal_fingerprint : String
  payload : TransactionPayload
  signature : String
  nonce : Nat := 0
  version : String := "1.0"
deriving DecidableEq

/-- The payload as `model_dump(exclude_none=True)` plus `Transaction.to_bytes`
manual handling: a truthy `encrypted_data` is base64-encoded; `none` fields
are omitted. `none` result models the `TypeError` `json.dumps` raises when a
present-but-empty `encrypted_data` (falsy, so left as raw bytes) reaches it. -/
def payloadDumpJson (p : TransactionPayload) : Option JValue :=
  match p.encrypted_data with
  | some [] => none
  | some bs =>
      some (.obj (JObj.ofList
        ((match p.data with
          | some d => [("data", JValue.obj (JObj.ofList d))]
          | none => []) ++
          [("encrypted_data", .str (b64encode bs)),
           ("metadata", .obj (JObj.ofList p.metadata)),
           ("timestamp", .int p.timestamp),
           ("type", .str p.type.value)])))
  | none =>
      some (.obj (JObj.ofList
        ((match p.data with
          | some d => [("data", JValue.obj (JObj.ofList d))]
          | none => []) ++
          [("metadata", .obj (JObj.ofList p.metadata)),
           ("timestamp", .int p.timestamp),
           ("type", .str p.type.value)])))

/-- `Transaction.to_bytes`: the canonical signing bytes — the five signed
fields (never the signature) serialized with sorted keys. -/
def Transaction.to_bytes (tx : Transaction) : Option Bytes :=
  (payloadDumpJson tx.payload).map (fun pj =>
    strBytes (dumpVal (.obj (JObj.ofList
      [("public_key", .str tx.public_key),
       ("seal_fingerprint", .str tx.seal_fingerprint),
       ("payload", pj),
       ("nonce", .int tx.nonce),
       ("version", .str tx.version)]))))

/-- `Transaction.transaction_id`: `"veiltx:"` followed by the hex SHA-256 of
the canonical bytes. -/
def Transaction.transaction_id (tx : Transaction) : Option String :=
  tx.to_bytes.map (fun bs => "veiltx:" ++ hexOfBytes (sha256 bs))

/-- `SealRotationData`: the two required string fields of a rotation payload. -/
structure SealRotationData where
  new_seal_fingerprint : String
  new_seal_public_key : String
deriving DecidableEq

/-- Find a key in a payload dict. -/
def jlookup (fields : List (String × JValue)) (k : String) : Option JValue :=
  (fields.find? (fun p => p.1 == k)).map (fun p => p.2)

/-- `SealRotationData.model_validate(tx.payload.data)`: both fields must be
present with string values; `none` models the pydantic `ValidationError`
(also raised when the payload has no cleartext dict at all). -/
def SealRotationData.model_validate
    (data : Option (List (String × JValue))) : Option SealRotationData :=
  match data with
  | none => none
  | some fields =>
      match jlookup fields "new_seal_fingerprint", jlookup fields "new_seal_public_key" with
      | some (.str f), some (.str k) => some ⟨f, k⟩
      | _, _ => none

/-! ## Mempool (`node/mempool.py`)

Every method takes the lock for its whole body, so the thread-safe object is
modelled as a sequential map from `transaction_id` to transaction. -/

/-- The mempool: pending transactions keyed by `transaction_id`, insertion
order kept, keys unique by construction. -/
structure Mempool where
  transactions : List (String × Transaction) := []
deriving DecidableEq

namespace Mempool

/-- `add_transaction`: `false` and no mutation when the id is already present,
else insert and `true`. `none` models the exception `tx.transaction_id`
itself raises on a non-serializable payload. -/
def add_transaction (mp : Mempool) (tx : Transaction) : Option (Bool × Mempool) :=
  tx.transaction_id.map (fun tid =>
    if (mp.transactions.find? (fun p => p.1 == tid)).isSome then (false, mp)
    else (true, ⟨mp.transactions ++ [(tid, tx)]⟩))

/-- `get_transaction`. -/
def get_transaction (mp : Mempool) (tid : String) : Option Transaction :=
  (mp.transactions.find? (fun p => p.1 == tid)).map (fun p => p.2)

/-- `remove_transaction`: delete if present, silently keep otherwise. -/
def remove_transaction (mp : Mempool) (tid : String) : Mempool :=
  ⟨mp.transactions.filter (fun p => p.1 != tid)⟩

/-- `get_size`: the number of stored transactions. -/
def get_size (mp : Mempool) : Nat := mp.transactions.length

end Mempool

/-! ## In-memory state (`core/state.py`) -/

/-- A key of the `StateManager.identities` dict. The code annotates keys as
`str` but `apply_transaction` uses `payload.data.get("recipient")` as a key
directly, which is Python `None` when the field is absent: `none` models that
key (string payload values, the only recipient form the system produces, are
`some`). -/
abbrev IdKey := Option String

/-- `IdentityState`: balance, seal sets, data store, and nonce counter. The
seal sets are lists whose observable is membership. -/
structure IdentityState where
  public_key : IdKey
  balance : Int := 0
  active_seals : List String := []
  all_seals : List String := []
  data_store : List (String × JValue) := []
  nonce : Nat := 0
deriving DecidableEq

/-- Python `set.add`: keep the element set unchanged when present. -/
def insertSet (s : String) (l : List String) : List String :=
  if l.contains s then l else l ++ [s]

namespace IdentityState

/-- `can_authorize`: is the seal currently active. -/
def can_authorize (st : IdentityState) (seal_fingerprint : String) : Bool :=
  st.active_seals.contains seal_fingerprint

/-- `add_seal`: activate a seal and record it in the history. -/
def add_seal (st : IdentityState) (seal_fingerprint : String) : IdentityState :=
  { st with active_seals := insertSet seal_fingerprint st.active_seals,
            all_seals := insertSet seal_fingerprint st.all_seals }

/-- `rotate_seal`: drop the old seal from the active set when present, then
activate the new seal and add it to the history. -/
def rotate_seal (st : IdentityState) (old_seal new_seal : String) : IdentityState :=
  let act := if st.active_seals.contains old_seal
    then st.active_seals.erase old_seal else st.active_seals
  { st with active_seals := insertSet new_seal act,
            all_seals := insertSet new_seal st.all_seals }

/-- `increment_nonce`. -/
def increment_nonce (st : IdentityState) : IdentityState :=
  { st with nonce := st.nonce + 1 }

end IdentityState

/-- The `StateManager.identities` dict: association list, keys unique. -/
structure StateManager where
  identities : List (IdKey × IdentityState) := []
deriving DecidableEq

/-- Dict lookup. -/
def smLookup (sm : StateManager) (k : IdKey) : Option IdentityState :=
  (sm.identities.find? (fun p => p.1 == k)).map (fun p => p.2)

/-- Dict assignment: replace in place when the key exists, else append. -/
def smSetAux (k : IdKey) (st : IdentityState) :
    List (IdKey × IdentityState) → List (IdKey × IdentityState)
  | [] => [(k, st)]
  | (k0, st0) :: rest =>
      if k0 == k then (k0, st) :: rest else (k0, st0) :: smSetAux k st rest

/-- Dict assignment on the manager. -/
def smSet (sm : StateManager) (k : IdKey) (st : IdentityState) : StateManager :=
  ⟨smSetAux k st sm.identities⟩

/-- Python `dict[key] = value` on a payload data store. -/
def assocUpd : List (String × JValue) → String → JValue → List (String × JValue)
  | [], k, v => [(k, v)]
  | (k0, v0) :: rest, k, v =>
      if k0 == k then (k0, v) :: rest else (k0, v0) :: assocUpd rest k v

/-- The `data` merge loop: `for key, value in payload.data.items(): store[key] = value`. -/
def mergeStore (ds : List (String × JValue)) (d : List (String × JValue)) :
    List (String × JValue) :=
  d.foldl (fun acc kv => assocUpd acc kv.1 kv.2) ds

/-- `payload.data.get("amount", 0)` followed by the numeric comparisons:
missing defaults to 0, ints (and bools, which Python treats as ints) pass
through, any other value makes `amount <= 0` raise, modelled as `none`. -/
def amountOf (d : List (String × JValue)) : Option Int :=
  match jlookup d "amount" with
  | none => some 0
  | some (.int n) => some n
  | some (.bool b) => some (if b then 1 else 0)
  | some _ => none

/-- `payload.data.get("recipient")` as a dict key: a string value is the key
itself, an absent field is the `None` key. (A non-string JSON value would be
used by Python as a key of its own; no caller produces one and it is mapped
to the `None` key here.) -/
def recipientOf (d : List (String × JValue)) : IdKey :=
  match jlookup d "recipient" with
  | some (.str s) => some s
  | _ => none

/-- The `old_seal` / `new_seal` truthiness gate of the rotation branch: a
nonempty string passes, an absent field or empty string is falsy and fails.
(A truthy non-string value would flow into the seal sets; no caller produces
one and it is modelled as the falsy branch.) -/
def truthyStr (v : Option JValue) : Option String :=
  match v with
  | some (.str s) => if s.isEmpty then none else some s
  | _ => none

namespace StateManager

/-- The `TOKEN_TRANSFER` block of `apply_transaction`, with the sender entry
already ensured (`sm1`) and its state read (`st`): extract amount and
recipient, gate on amount and funds, debit the sender, get-or-create and
credit the recipient, then increment the sender's nonce. -/
def apply_token_transfer (sm1 : StateManager) (key : IdKey) (st : IdentityState)
    (d : List (String × JValue)) : Option (Bool × StateManager) :=
  match amountOf d with
  | none => none
  | some amount =>
      let recipient := recipientOf d
      if amount ≤ 0 ∨ st.balance < amount then some (false, sm1)
      else
        let sm2 := smSet sm1 key { st with balance := st.balance - amount }
        let sm3 := if (smLookup sm2 recipient).isSome then sm2
          else smSet sm2 recipient { public_key := recipient }
        let rst := (smLookup sm3 recipient).getD { public_key := recipient }
        let sm4 := smSet sm3 recipient { rst with balance := rst.balance + amount }
        let sst := (smLookup sm4 key).getD { public_key := key }
        some (true, smSet sm4 key sst.increment_nonce)

/-- The per-type effect dispatch of `apply_transaction` (the code after both
gates have passed), followed by the final nonce increment. -/
def apply_type_effects (sm1 : StateManager) (key : IdKey) (st : IdentityState)
    (tx : Transaction) : Option (Bool × StateManager) :=
  match tx.payload.type with
  | .token_transfer =>
      match tx.payload.data with
      | none => none
      | some d => apply_token_transfer sm1 key st d
  | .seal_rotation =>
      match tx.payload.data with
      | none => none
      | some d =>
          match truthyStr (jlookup d "old_seal"), truthyStr (jlookup d "new_seal") with
          | some o, some n =>
              some (true, smSet sm1 key ((st.rotate_seal o n).increment_nonce))
          | _, _ => some (false, sm1)
  | .data =>
      match tx.payload.data with
      | none => none
      | some d =>
          some (true, smSet sm1 key
            ({ st with data_store := mergeStore st.data_store d }).increment_nonce)
  | _ => some (true, smSet sm1 key st.increment_nonce)

/-- `apply_transaction`: get-or-create the sender entry, gate on seal
authorization and nonce, apply the per-type effects, then increment the
nonce. `some (b, sm)` is the returned bool with the post state; `none` is an
uncaught Python exception (`.get`/`.items` on a `None` payload dict, or a
non-numeric amount). -/
def apply_transaction (sm : StateManager) (tx : Transaction) :
    Option (Bool × StateManager) :=
  let key : IdKey := some tx.public_key
  let sm1 := if (smLookup sm key).isSome then sm
    else smSet sm key { public_key := key }
  let st := (smLookup sm1 key).getD { public_key := key }
  if st.can_authorize tx.seal_fingerprint = false then some (false, sm1)
  else if tx.nonce ≠ st.nonce then some (false, sm1)
  else apply_type_effects sm1 key st tx

/-- `get_identity_state`. -/
def get_identity_state (sm : StateManager) (public_key : String) : Option IdentityState :=
  smLookup sm (some public_key)

/-- `initialize_identity`: create the identity with its first active seal and
starting balance, a no-op when it already exists. -/
def initialize_identity (sm : StateManager) (public_key : String)
    (initial_seal : String) (initial_balance : Int := 0) : StateManager :=
  if (smLookup sm (some public_key)).isSome then sm
  else smSet sm (some public_key)
    (IdentityState.add_seal
      { public_key := some public_key, balance := initial_balance } initial_seal)

end StateManager

/-! ## Seals (`core/seal.py`) -/

/-- `ed25519.Ed25519PrivateKey.from_private_bytes`: accepts exactly 32 bytes
(every 32-byte string is a valid ed25519 private key), raises otherwise. The
key object is modelled by its private bytes; the claims never need the
derived public point. -/
def ed25519_from_private_bytes (bs : Bytes) : Option Bytes :=
  if bs.length = 32 then some bs else none

namespace Seal

/-- `Seal.from_seed`: a seed shorter than 32 bytes is replaced by (the first
32 bytes of) its SHA-256 digest, then handed to the ed25519 key constructor;
`none` models the `ValueError` that constructor raises on a length other
than 32. -/
def from_seed (seed : Bytes) : Option Bytes :=
  let seed1 := if seed.length < 32 then (sha256 seed).take 32 else seed
  ed25519_from_private_bytes seed1

end Seal

/-! ## Database adapter (`storage/db.py`)

Only the tables and columns the validator touches are modelled: the
`identities` rows as their fingerprints, the `seal_authorizations` rows, and
the `identity_state` nonce column. -/

/-- One `seal_authorizations` row. `(identity_fingerprint, seal_fingerprint)`
pairs are unique (the table's conflict target). -/
structure SealAuth where
  identity_fingerprint : String
  seal_fingerprint : String
  seal_public_key_bytes : Bytes
  version : Nat
  is_active : Bool
deriving DecidableEq

/-- The database state the validator reads and writes. -/
structure Database where
  identities : List String := []
  seal_authorizations : List SealAuth := []
  identity_state : List (String × Nat) := []
deriving DecidableEq

namespace Database

/-- `get_authorized_seal_public_key`: the key bytes of an active seal row of
a registered identity (the SQL joins `identities`), else `None`. -/
def get_authorized_seal_public_key (db : Database) (identity_fingerprint seal_fingerprint : String) :
    Option Bytes :=
  if db.identities.contains identity_fingerprint then
    (db.seal_authorizations.find? (fun sa =>
        sa.identity_fingerprint == identity_fingerprint &&
        sa.seal_fingerprint == seal_fingerprint && sa.is_active)).map
      (fun sa => sa.seal_public_key_bytes)
  else none

/-- `deactivate_seal`: clear `is_active` on every row bearing the
fingerprint, whatever identity it belongs to; the bool is `rowcount > 0`. -/
def deactivate_seal (db : Database) (seal_fingerprint : String) : Bool × Database :=
  (db.seal_authorizations.any (fun sa => sa.seal_fingerprint == seal_fingerprint),
   { db with seal_authorizations := db.seal_authorizations.map (fun sa =>
       if sa.seal_fingerprint == seal_fingerprint then { sa with is_active := false } else sa) })

/-- `authorize_seal`: `false` without a registered identity row or on the
`(identity, seal)` conflict, else insert and `true`. Modelled from the spec:
`schema.sql` is not in the source tree, and per the spec an authorized seal
is active, so the inserted row (whose `INSERT` names no `is_active` column)
defaults to active. The `version` default 1 is the Python signature's. -/
def authorize_seal (db : Database) (identity_fingerprint seal_fingerprint : String)
    (seal_public_key_bytes : Bytes) (version : Nat := 1) : Bool × Database :=
  if ¬ db.identities.contains identity_fingerprint then (false, db)
  else if db.seal_authorizations.any (fun sa =>
      sa.identity_fingerprint == identity_fingerprint &&
      sa.seal_fingerprint == seal_fingerprint) then (false, db)
  else (true, { db with seal_authorizations := db.seal_authorizations ++
      [⟨identity_fingerprint, seal_fingerprint, seal_public_key_bytes, version, true⟩] })

/-- `get_identity_nonce`: the `identity_state.nonce` of a registered
identity, `None` when either row is missing. -/
def get_identity_nonce (db : Database) (identity_fingerprint : String) : Option Nat :=
  if db.identities.contains identity_fingerprint then
    (db.identity_state.find? (fun p => p.1 == identity_fingerprint)).map (fun p => p.2)
  else none

/-- `increment_identity_nonce`: `nonce := nonce + 1` on the state row found
through the `identities` subquery; the bool is `rowcount > 0`. -/
def increment_identity_nonce (db : Database) (identity_fingerprint : String) : Bool × Database :=
  if db.identities.contains identity_fingerprint &&
      db.identity_state.any (fun p => p.1 == identity_fingerprint) then
    (true, { db with identity_state := db.identity_state.map (fun p =>
        if p.1 == identity_fingerprint then (p.1, p.2 + 1) else p) })
  else (false, db)

/-- The version column of a seal row of an identity, for stating claims. -/
def seal_version (db : Database) (identity_fingerprint seal_fingerprint : String) : Option Nat :=
  (db.seal_authorizations.find? (fun sa =>
      sa.identity_fingerprint == identity_fingerprint &&
      sa.seal_fingerprint == seal_fingerprint)).map (fun sa => sa.version)

/-- Whether a seal row of an identity is active, for stating claims. -/
def seal_active (db : Database) (identity_fingerprint seal_fingerprint : String) : Bool :=
  db.seal_authorizations.any (fun sa =>
    sa.identity_fingerprint == identity_fingerprint &&
    sa.seal_fingerprint == seal_fingerprint && sa.is_active)

end Database

/-! ## Validator (`node/validator.py`)

The signature verification step (`load_pem_public_key` followed by
`.verify`) is an external primitive: the validator is parameterized by a
function `verify pk sig data` that is `true` exactly when the loaded key
verifies the signature, `false` on any exception or mismatch. -/

/-- The verification primitive's type: public key PEM bytes, raw signature
bytes, data. -/
abbrev VerifyFn := Bytes → Bytes → Bytes → Bool

namespace Validator

/-- `_process_seal_rotation`: validate the payload, deactivate the signing
seal, then decode and authorize the new seal (at the `authorize_seal`
default version). The `try` block spans everything, so a base64 failure
after the deactivation leaves the deactivation in the database and returns
`False`. -/
def _process_seal_rotation (db : Database) (tx : Transaction) : Bool × Database :=
  match SealRotationData.model_validate tx.payload.data with
  | none => (false, db)
  | some rd =>
      let (_, db1) := db.deactivate_seal tx.seal_fingerprint
      match b64decode rd.new_seal_public_key with
      | none => (false, db1)
      | some pkB =>
          let (_, db2) := db1.authorize_seal tx.public_key rd.new_seal_fingerprint pkB
          (true, db2)

/-- `process_transaction`: seal authorization gate, signature gate, nonce
gate, per-type effects (only seal rotation has any), then the nonce
increment. -/
def process_transaction (verify : VerifyFn) (db : Database) (tx : Transaction) :
    Bool × Database :=
  match db.get_authorized_seal_public_key tx.public_key tx.seal_fingerprint with
  | none => (false, db)
  | some pkBytes =>
      let sigOk := match b64decode tx.signature, tx.to_bytes with
        | some sig, some data => verify pkBytes sig data
        | _, _ => false
      if sigOk = false then (false, db)
      else
        match db.get_identity_nonce tx.public_key with
        | none => (false, db)
        | some current_nonce =>
            if tx.nonce ≠ current_nonce then (false, db)
            else
              let (ok, db1) :=
                if tx.payload.type = .seal_rotation then _process_seal_rotation db tx
                else (true, db)
              if ok = false then (false, db1)
              else
                let (_, db2) := db1.increment_identity_nonce tx.public_key
                (true, db2)

end Validator

/-! ## Shared lemmas about the embedded maps and sets -/

/-- Membership in a Python-set insertion. -/
theorem mem_insertSet (x s : String) (l : List String) :
    x ∈ insertSet s l ↔ x ∈ l ∨ x = s := by
  by_cases hc : l.contains s = true
  · have hs : s ∈ l := by simpa using hc
    simp only [insertSet, hc, if_true]
    constructor
    · exact fun h => Or.inl h
    · rintro (h | rfl)
      · exact h
      · exact hs
  · have hcf : l.contains s = false := by simpa using hc
    simp only [insertSet, hcf, Bool.false_eq_true, if_false]
    simp [List.mem_append]

/-- Dict lookup after dict assignment. -/
theorem smLookup_smSet (sm : StateManager) (k : IdKey) (st : IdentityState) (k' : IdKey) :
    smLookup (smSet sm k st) k' = if k' = k then some st else smLookup sm k' := by
  rcases sm with ⟨l⟩
  simp only [smLookup, smSet]
  induction l with
  | nil =>
      simp only [smSetAux, List.find?]
      by_cases h : k' = k
      · subst h
        simp
      · have hb : (k == k') = false := beq_eq_false_iff_ne.mpr (fun he => h he.symm)
        simp [hb, h]
  | cons p rest ih =>
      rcases p with ⟨k0, st0⟩
      simp only [smSetAux]
      cases hk : (k0 == k) with
      | true =>
          have hk0 : k0 = k := by simpa using hk
          subst hk0
          simp only [hk, if_true, List.find?]
          by_cases h' : k' = k0
          · subst h'
            simp
          · have hb : (k0 == k') = false := beq_eq_false_iff_ne.mpr (fun he => h' he.symm)
            simp [hb, h']
      | false =>
          simp only [hk, Bool.false_eq_true, if_false, List.find?]
          cases hk1 : (k0 == k') with
          | true =>
              have hk01 : k0 = k' := by simpa using hk1
              have h' : ¬ k' = k := by
                intro he
                rw [hk01, he] at hk
                simp at hk
              simp [h']
          | false =>
              simpa using ih

/-- A fresh dict entry has the seal invariant. -/
theorem sealInvariant_empty (k : IdKey) :
    ∀ s ∈ ({ public_key := k } : IdentityState).active_seals,
      s ∈ ({ public_key := k } : IdentityState).all_seals := by
  intro s hs
  simp at hs

/-- The per-identity invariant of C9: every active seal is a historical seal. -/
def IdentityState.sealInvariant (st : IdentityState) : Prop :=
  ∀ s ∈ st.active_seals, s ∈ st.all_seals

/-- The manager-wide invariant of C9: every stored identity state satisfies
the per-identity invariant. -/
def StateManager.sealInvariant (sm : StateManager) : Prop :=
  ∀ p ∈ sm.identities, IdentityState.sealInvariant p.2

instance (st : IdentityState) : Decidable st.sealInvariant :=
  inferInstanceAs (Decidable (∀ s ∈ st.active_seals, s ∈ st.all_seals))

instance (sm : StateManager) : Decidable sm.sealInvariant :=
  inferInstanceAs (Decidable (∀ p ∈ sm.identities, IdentityState.sealInvariant p.2))

/-- An entry of the dict after assignment is the written entry or an old one. -/
theorem mem_smSetAux (p : IdKey × IdentityState) (k : IdKey) (st : IdentityState) :
    ∀ l : List (IdKey × IdentityState), p ∈ smSetAux k st l → p = (k, st) ∨ p ∈ l := by
  intro l
  induction l with
  | nil =>
      intro h
      simp only [smSetAux] at h
      simp at h
      exact Or.inl (by cases p; simp_all)
  | cons q rest ih =>
      rcases q with ⟨k0, st0⟩
      intro h
      simp only [smSetAux] at h
      by_cases hk : (k0 == k) = true
      · have hk0 : k0 = k := by simpa using hk
        subst hk0
        rw [if_pos hk] at h
        rcases List.mem_cons.mp h with h1 | h1
        · exact Or.inl h1
        · exact Or.inr (List.mem_cons_of_mem _ h1)
      · rw [if_neg hk] at h
        rcases List.mem_cons.mp h with h1 | h1
        · exact Or.inr (h1 ▸ List.mem_cons_self _ _)
        · rcases ih h1 with h2 | h2
          · exact Or.inl h2
          · exact Or.inr (List.mem_cons_of_mem _ h2)

/-- `add_seal` preserves the seal invariant. -/
theorem sealInvariant_add_seal (st : IdentityState) (s : String)
    (h : st.sealInvariant) : (st.add_seal s).sealInvariant := by
  intro x hx
  simp only [IdentityState.add_seal] at hx ⊢
  rw [mem_insertSet] at hx
  rw [mem_insertSet]
  rcases hx with hx | rfl
  · exact Or.inl (h x hx)
  · exact Or.inr rfl

/-- `rotate_seal` preserves the seal invariant. -/
theorem sealInvariant_rotate_seal (st : IdentityState) (o n : String)
    (h : st.sealInvariant) : (st.rotate_seal o n).sealInvariant := by
  intro x hx
  simp only [IdentityState.rotate_seal] at hx ⊢
  rw [mem_insertSet] at hx
  rw [mem_insertSet]
  rcases hx with hx | rfl
  · have hx' : x ∈ st.active_seals := by
      by_cases hc : st.active_seals.contains o = true
      · rw [if_pos hc] at hx
        exact List.mem_of_mem_erase hx
      · rw [if_neg hc] at hx
        exact hx
    exact Or.inl (h x hx')
  · exact Or.inr rfl

/-- `increment_nonce` preserves the seal invariant. -/
theorem sealInvariant_increment_nonce (st : IdentityState)
    (h : st.sealInvariant) : st.increment_nonce.sealInvariant := h

/-- Dict assignment preserves the manager invariant when the written state
has the identity invariant. -/
theorem sealInvariant_smSet (sm : StateManager) (k : IdKey) (st : IdentityState)
    (hsm : sm.sealInvariant) (hst : st.sealInvariant) :
    (smSet sm k st).sealInvariant := by
  intro p hp
  rcases mem_smSetAux p k st sm.identities hp with h | h
  · rw [h]
    exact hst
  · exact hsm p h

/-- A state found by lookup satisfies the invariant of its manager. -/
theorem sealInvariant_of_smLookup (sm : StateManager) (k : IdKey) (st : IdentityState)
    (hsm : sm.sealInvariant) (h : smLookup sm k = some st) : st.sealInvariant := by
  simp only [smLookup] at h
  rcases Option.map_eq_some'.mp h with ⟨q, hq, hq2⟩
  have := hsm q (List.mem_of_find?_eq_some hq)
  rw [hq2] at this
  exact this

/-- Get-or-default keeps the identity invariant. -/
theorem sealInvariant_getD (sm : StateManager) (k : IdKey)
    (hsm : sm.sealInvariant) :
    ((smLookup sm k).getD { public_key := k }).sealInvariant := by
  cases h : smLookup sm k with
  | none =>
      simp only [Option.getD_none]
      exact sealInvariant_empty k
  | some st =>
      simp only [Option.getD_some]
      exact sealInvariant_of_smLookup sm k st hsm h

/-- The token-transfer block preserves the manager invariant. -/
theorem apply_token_transfer_sealInvariant (sm1 : StateManager) (key : IdKey)
    (st : IdentityState) (d : List (String × JValue)) (b : Bool) (sm' : StateManager)
    (h1 : sm1.sealInvariant) (hst : st.sealInvariant)
    (happ : StateManager.apply_token_transfer sm1 key st d = some (b, sm')) :
    sm'.sealInvariant := by
  simp only [StateManager.apply_token_transfer] at happ
  split at happ
  · cases happ
  · rename_i amount hamt
    split at happ
    · cases happ
      exact h1
    · cases happ
      have h2 : StateManager.sealInvariant
          (smSet sm1 key { st with balance := st.balance - amount }) :=
        sealInvariant_smSet _ _ _ h1 hst
      have h3 : StateManager.sealInvariant
          (if (smLookup (smSet sm1 key { st with balance := st.balance - amount })
                (recipientOf d)).isSome = true
           then smSet sm1 key { st with balance := st.balance - amount }
           else smSet (smSet sm1 key { st with balance := st.balance - amount })
                (recipientOf d) { public_key := recipientOf d }) := by
        split
        · exact h2
        · exact sealInvariant_smSet _ _ _ h2 (sealInvariant_empty _)
      exact sealInvariant_smSet _ _ _
        (sealInvariant_smSet _ _ _ h3 (sealInvariant_getD _ _ h3))
        (sealInvariant_increment_nonce _
          (sealInvariant_getD _ _
            (sealInvariant_smSet _ _ _ h3 (sealInvariant_getD _ _ h3))))

/-- The per-type effect dispatch preserves the manager invariant. -/
theorem apply_type_effects_sealInvariant (sm1 : StateManager) (key : IdKey)
    (st : IdentityState) (tx : Transaction) (b : Bool) (sm' : StateManager)
    (h1 : sm1.sealInvariant) (hst : st.sealInvariant)
    (happ : StateManager.apply_type_effects sm1 key st tx = some (b, sm')) :
    sm'.sealInvariant := by
  simp only [StateManager.apply_type_effects] at happ
  split at happ
  · split at happ
    · cases happ
    · exact apply_token_transfer_sealInvariant _ _ _ _ _ _ h1 hst happ
  · split at happ
    · cases happ
    · split at happ
      · cases happ
        exact sealInvariant_smSet _ _ _ h1
          (sealInvariant_increment_nonce _ (sealInvariant_rotate_seal _ _ _ hst))
      · cases happ
        exact h1
  · split at happ
    · cases happ
    · cases happ
      exact sealInvariant_smSet _ _ _ h1 (sealInvariant_increment_nonce _ hst)
  · cases happ
    exact sealInvariant_smSet _ _ _ h1 (sealInvariant_increment_nonce _ hst)

/-- `apply_transaction` preserves the manager invariant: every state it
writes either keeps the seal fields, is freshly created empty, or comes out
of `rotate_seal`. -/
theorem apply_transaction_sealInvariant (sm : StateManager) (tx : Transaction)
    (b : Bool) (sm' : StateManager) (hinv : sm.sealInvariant)
    (happ : sm.apply_transaction tx = some (b, sm')) : sm'.sealInvariant := by
  simp only [StateManager.apply_transaction] at happ
  split at happ
  case isTrue hex =>
    have hst := sealInvariant_getD sm (some tx.public_key) hinv
    split at happ
    · cases happ
      exact hinv
    · split at happ
      · cases happ
        exact hinv
      · exact apply_type_effects_sealInvariant _ _ _ _ _ _ hinv hst happ
  case isFalse hex =>
    have h1 : StateManager.sealInvariant
        (smSet sm (some tx.public_key) { public_key := some tx.public_key }) :=
      sealInvariant_smSet _ _ _ hinv (sealInvariant_empty _)
    have hst := sealInvariant_getD
      (smSet sm (some tx.public_key) { public_key := some tx.public_key })
      (some tx.public_key) h1
    split at happ
    · cases happ
      exact h1
    · split at happ
      · cases happ
        exact h1
      · exact apply_type_effects_sealInvariant _ _ _ _ _ _ h1 hst happ

/-! ## Lemmas about database nonces and the validator gates -/

/-- `get_identity_nonce` only reads the identity and state tables. -/
theorem get_identity_nonce_congr (db db' : Database) (fp : String)
    (h1 : db'.identities = db.identities) (h2 : db'.identity_state = db.identity_state) :
    db'.get_identity_nonce fp = db.get_identity_nonce fp := by
  simp [Database.get_identity_nonce, h1, h2]

/-- `_process_seal_rotation` never touches the identity or state tables. -/
theorem rotation_fixes_nonce_tables (db : Database) (tx : Transaction) :
    (Validator._process_seal_rotation db tx).2.identities = db.identities ∧
    (Validator._process_seal_rotation db tx).2.identity_state = db.identity_state := by
  simp only [Validator._process_seal_rotation]
  split
  · exact ⟨rfl, rfl⟩
  · split
    · exact ⟨rfl, rfl⟩
    · simp only [Database.authorize_seal, Database.deactivate_seal]
      split
      · exact ⟨rfl, rfl⟩
      · split
        · exact ⟨rfl, rfl⟩
        · exact ⟨rfl, rfl⟩

/-- The state-row update of `increment_identity_nonce`, at the found row. -/
theorem find?_nonce_update (l : List (String × Nat)) (fp : String) (q : String × Nat)
    (h : l.find? (fun p => p.1 == fp) = some q) :
    (l.map (fun p => if p.1 == fp then (p.1, p.2 + 1) else p)).find? (fun p => p.1 == fp)
      = some (q.1, q.2 + 1) := by
  induction l with
  | nil => cases h
  | cons a rest ih =>
      by_cases hpa : (a.1 == fp) = true
      · simp only [List.find?, List.map_cons, hpa, if_true] at h ⊢
        cases h
        rfl
      · have hf : (a.1 == fp) = false := by simpa using hpa
        simp only [List.find?, List.map_cons, hf, Bool.false_eq_true, if_false] at h ⊢
        exact ih h

/-- Incrementing the nonce of an identity whose nonce reads `n` makes it read
`n + 1`. -/
theorem get_identity_nonce_increment (db : Database) (fp : String) (n : Nat)
    (h : db.get_identity_nonce fp = some n) :
    (db.increment_identity_nonce fp).2.get_identity_nonce fp = some (n + 1) := by
  simp only [Database.get_identity_nonce] at h
  by_cases hc : db.identities.contains fp = true
  · rw [if_pos hc] at h
    rcases Option.map_eq_some'.mp h with ⟨q, hq, hq2⟩
    have hany : db.identity_state.any (fun p => p.1 == fp) = true := by
      refine List.any_eq_true.mpr ⟨q, List.mem_of_find?_eq_some hq, ?_⟩
      simpa using List.find?_some hq
    simp only [Database.increment_identity_nonce, hc, hany, Bool.and_self, if_true]
    simp only [Database.get_identity_nonce, hc, if_true]
    rw [find?_nonce_update db.identity_state fp q hq]
    simp [hq2]
  · rw [if_neg hc] at h
    cases h

/-- Elimination for accepted validator runs: acceptance pins the pre-state
nonce to the transaction nonce, and the post state is the nonce increment of
a database whose identity and state tables are the pre-state's. -/
theorem process_transaction_true_elim (verify : VerifyFn) (db : Database)
    (tx : Transaction) (db' : Database)
    (happ : Validator.process_transaction verify db tx = (true, db')) :
    ∃ db1 : Database, db.get_identity_nonce tx.public_key = some tx.nonce ∧
      db1.identities = db.identities ∧ db1.identity_state = db.identity_state ∧
      db' = (db1.increment_identity_nonce tx.public_key).2 := by
  simp only [Validator.process_transaction] at happ
  split at happ
  · simp at happ
  · split at happ
    · simp at happ
    · split at happ
      · simp at happ
      · rename_i n hn
        split at happ
        · simp at happ
        · rename_i hnn
          have hn' : db.get_identity_nonce tx.public_key = some tx.nonce := by
            rw [hn]
            have : tx.nonce = n := by
              by_cases h : tx.nonce = n
              · exact h
              · exact absurd h hnn
            rw [this]
          by_cases hrot : tx.payload.type = TransactionType.seal_rotation
          · rw [if_pos hrot] at happ
            rcases hres : Validator._process_seal_rotation db tx with ⟨ok, db1⟩
            rw [hres] at happ
            dsimp only at happ
            split at happ
            · simp at happ
            · rcases hinc : db1.increment_identity_nonce tx.public_key with ⟨bi, db2⟩
              rw [hinc] at happ
              dsimp only at happ
              have hdb1 : db1 = (Validator._process_seal_rotation db tx).2 := by
                rw [hres]
              refine ⟨db1, hn', ?_, ?_, ?_⟩
              · rw [hdb1]
                exact (rotation_fixes_nonce_tables db tx).1
              · rw [hdb1]
                exact (rotation_fixes_nonce_tables db tx).2
              · have h2 : db2 = (db1.increment_identity_nonce tx.public_key).2 := by
                  rw [hinc]
                rw [← h2]
                exact (Prod.mk.injEq _ _ _ _ |>.mp happ.symm).2
          · rw [if_neg hrot] at happ
            dsimp only at happ
            rw [if_neg (by simp)] at happ
            rcases hinc : db.increment_identity_nonce tx.public_key with ⟨bi, db2⟩
            rw [hinc] at happ
            dsimp only at happ
            refine ⟨db, hn', rfl, rfl, ?_⟩
            have h2 : db2 = (db.increment_identity_nonce tx.public_key).2 := by
              rw [hinc]
            rw [← h2]
            exact (Prod.mk.injEq _ _ _ _ |>.mp happ.symm).2

/-- A nonce mismatch (including a missing state row) rejects before any
mutation. -/
theorem process_transaction_nonce_mismatch (verify : VerifyFn) (db : Database)
    (tx : Transaction) (h : db.get_identity_nonce tx.public_key ≠ some tx.nonce) :
    Validator.process_transaction verify db tx = (false, db) := by
  simp only [Validator.process_transaction]
  split
  · rfl
  · split
    · rfl
    · split
      · rfl
      · rename_i n hn
        have hne : tx.nonce ≠ n := by
          intro he
          exact h (by rw [hn, he])
        rw [if_pos hne]

/-- The current nonce Python reads through the get-or-created sender entry
equals the pre-state nonce (0 for an unknown identity). -/
def smNonce (sm : StateManager) (pk : String) : Nat :=
  match smLookup sm (some pk) with
  | some st => st.nonce
  | none => 0

/-- The sender state read by `apply_transaction` carries the current nonce. -/
theorem st_nonce_eq (sm : StateManager) (pk : String) :
    ((smLookup (if (smLookup sm (some pk)).isSome = true then sm
        else smSet sm (some pk) { public_key := some pk }) (some pk)).getD
      { public_key := some pk }).nonce = smNonce sm pk := by
  by_cases h : (smLookup sm (some pk)).isSome = true
  · rw [if_pos h]
    cases hl : smLookup sm (some pk) with
    | none =>
        rw [hl] at h
        simp at h
    | some st => simp [smNonce, hl]
  · rw [if_neg h]
    rw [smLookup_smSet]
    have hl : smLookup sm (some pk) = none := by
      cases hl : smLookup sm (some pk) with
      | none => rfl
      | some st =>
          rw [hl] at h
          simp at h
    simp [smNonce, hl]

/-- An accepted token transfer leaves the sender entry at nonce + 1. -/
theorem apply_token_transfer_nonce (sm1 : StateManager) (key : IdKey)
    (st : IdentityState) (d : List (String × JValue)) (sm' : StateManager)
    (happ : StateManager.apply_token_transfer sm1 key st d = some (true, sm')) :
    ∃ st' : IdentityState, smLookup sm' key = some st' ∧ st'.nonce = st.nonce + 1 := by
  simp only [StateManager.apply_token_transfer] at happ
  split at happ
  · cases happ
  · rename_i amount hamt
    split at happ
    · simp at happ
    · cases happ
      refine ⟨_, by rw [smLookup_smSet, if_pos rfl], ?_⟩
      simp only [IdentityState.increment_nonce]
      rw [smLookup_smSet]
      by_cases hkr : key = recipientOf d
      · rw [if_pos hkr]
        have hlk : smLookup (smSet sm1 key { st with balance := st.balance - amount })
            (recipientOf d) = some { st with balance := st.balance - amount } := by
          rw [← hkr, smLookup_smSet]
          simp
        simp [hlk]
      · rw [if_neg hkr]
        split
        · rw [smLookup_smSet]
          simp
        · rw [smLookup_smSet, if_neg hkr, smLookup_smSet]
          simp

/-- Accepted type effects leave the sender entry at nonce + 1. -/
theorem apply_type_effects_accepted_nonce (sm1 : StateManager) (key : IdKey)
    (st : IdentityState) (tx : Transaction) (sm' : StateManager)
    (happ : StateManager.apply_type_effects sm1 key st tx = some (true, sm')) :
    ∃ st' : IdentityState, smLookup sm' key = some st' ∧ st'.nonce = st.nonce + 1 := by
  simp only [StateManager.apply_type_effects] at happ
  split at happ
  · split at happ
    · cases happ
    · exact apply_token_transfer_nonce _ _ _ _ _ happ
  · split at happ
    · cases happ
    · split at happ
      · cases happ
        exact ⟨_, by rw [smLookup_smSet, if_pos rfl], rfl⟩
      · simp at happ
  · split at happ
    · cases happ
    · cases happ
      exact ⟨_, by rw [smLookup_smSet, if_pos rfl], rfl⟩
  · cases happ
    exact ⟨_, by rw [smLookup_smSet, if_pos rfl], rfl⟩

/-- A nonce mismatch in `apply_transaction` rejects without changing any
identity's nonce. -/
theorem apply_transaction_nonce_mismatch (sm : StateManager) (tx : Transaction)
    (h : tx.nonce ≠ smNonce sm tx.public_key) :
    ∃ sm1 : StateManager, sm.apply_transaction tx = some (false, sm1) ∧
      ∀ pk, smNonce sm1 pk = smNonce sm pk := by
  simp only [StateManager.apply_transaction]
  split
  case isTrue hex =>
    have hst : ((smLookup sm (some tx.public_key)).getD
        { public_key := some tx.public_key }).nonce = smNonce sm tx.public_key := by
      cases hl : smLookup sm (some tx.public_key) with
      | none =>
          rw [hl] at hex
          simp at hex
      | some st => simp [smNonce, hl]
    split
    · exact ⟨sm, rfl, fun pk => rfl⟩
    · rw [if_pos (by rw [hst]; exact h)]
      exact ⟨sm, rfl, fun pk => rfl⟩
  case isFalse hex =>
    have hl : smLookup sm (some tx.public_key) = none := by
      cases hl : smLookup sm (some tx.public_key) with
      | none => rfl
      | some st =>
          rw [hl] at hex
          simp at hex
    have hpres : ∀ pk, smNonce (smSet sm (some tx.public_key)
        { public_key := some tx.public_key }) pk = smNonce sm pk := by
      intro pk
      simp only [smNonce]
      rw [smLookup_smSet]
      by_cases he : (some pk : IdKey) = some tx.public_key
      · rw [if_pos he]
        have : pk = tx.public_key := by simpa using he
        rw [this, hl]
      · rw [if_neg he]
    split
    · exact ⟨_, rfl, hpres⟩
    · rename_i hauth
      exact absurd (by rw [smLookup_smSet]; simp [IdentityState.can_authorize]) hauth

/-- Python dict assignment updates exactly one key of the store. -/
theorem jlookup_assocUpd (ds : List (String × JValue)) (k0 : String) (v0 : JValue)
    (k : String) :
    jlookup (assocUpd ds k0 v0) k = if k0 = k then some v0 else jlookup ds k := by
  induction ds with
  | nil =>
      by_cases h : k0 = k
      · simp [assocUpd, jlookup, List.find?, h]
      · have hb : (k0 == k) = false := beq_eq_false_iff_ne.mpr h
        simp [assocUpd, jlookup, List.find?, hb, h]
  | cons a rest ih =>
      rcases a with ⟨ka, va⟩
      by_cases h1 : (ka == k0) = true
      · have hka : ka = k0 := by simpa using h1
        subst hka
        simp only [assocUpd, h1, if_true]
        by_cases h : ka = k
        · have hb : (ka == k) = true := by simpa using h
          simp [jlookup, List.find?, hb, h]
        · have hb : (ka == k) = false := beq_eq_false_iff_ne.mpr h
          simp [jlookup, List.find?, hb, h]
      · have h1f : (ka == k0) = false := by simpa using h1
        simp only [assocUpd, h1f, Bool.false_eq_true, if_false]
        by_cases h : (ka == k) = true
        · have hka : ka = k := by simpa using h
          have hk0 : ¬ k0 = k := by
            intro he
            rw [← he] at hka
            rw [hka] at h1f
            simp at h1f
          simp [jlookup, List.find?, h, hk0]
        · have hf : (ka == k) = false := by simpa using h
          simp only [jlookup, List.find?, hf, Bool.false_eq_true, if_false]
          simpa [jlookup] using ih

/-- The value a key ends with after a dict-iteration merge: the last value
the payload map holds for the key, if any. -/
def lwwLookup : List (String × JValue) → String → Option JValue
  | [], _ => none
  | p :: m, k =>
      match lwwLookup m k with
      | some v => some v
      | none => if p.1 == k then some p.2 else none

/-- The merge loop is last-write-wins per key over the previous store. -/
theorem jlookup_mergeStore (ds m : List (String × JValue)) (k : String) :
    jlookup (mergeStore ds m) k =
      match lwwLookup m k with
      | some v => some v
      | none => jlookup ds k := by
  induction m generalizing ds with
  | nil => rfl
  | cons p m ih =>
      simp only [mergeStore, List.foldl_cons] at ih ⊢
      rw [ih]
      cases hlw : lwwLookup m k with
      | some v => simp [lwwLookup, hlw]
      | none =>
          simp only [lwwLookup, hlw]
          rw [jlookup_assocUpd]
          by_cases h : p.1 = k
          · have hb : (p.1 == k) = true := by simpa using h
            simp [h, hb]
          · have hb : (p.1 == k) = false := beq_eq_false_iff_ne.mpr h
            simp [h, hb]

/-- The balance an identity key reads as (0 when the identity is unknown). -/
def smBalance (sm : StateManager) (k : IdKey) : Int :=
  match smLookup sm k with
  | some st => st.balance
  | none => 0

/-- After `deactivate_seal`, every row bearing the fingerprint is inactive. -/
theorem mem_deactivate_inactive (db : Database) (f : String) (sa : SealAuth)
    (hmem : sa ∈ ((db.deactivate_seal f).2).seal_authorizations)
    (hf : sa.seal_fingerprint = f) : sa.is_active = false := by
  simp only [Database.deactivate_seal, List.mem_map] at hmem
  obtain ⟨sa0, _, heq⟩ := hmem
  by_cases h : (sa0.seal_fingerprint == f) = true
  · rw [if_pos h] at heq
    rw [← heq]
  · rw [if_neg h] at heq
    rw [← heq] at hf
    exact absurd (by simpa using hf) h

/-- Deactivation preserves each rows `(identity, seal)` pair, so the
`authorize_seal` conflict check reads the same answer before and after. -/
theorem any_pair_map_deactivate (l : List SealAuth) (f idf sfp : String) :
    (l.map (fun sa => if sa.seal_fingerprint == f then { sa with is_active := false } else sa)).any
      (fun sa => sa.identity_fingerprint == idf && sa.seal_fingerprint == sfp) =
    l.any (fun sa => sa.identity_fingerprint == idf && sa.seal_fingerprint == sfp) := by
  induction l with
  | nil => rfl
  | cons sa rest ih =>
      simp only [List.map_cons, List.any_cons, ih]
      by_cases h : (sa.seal_fingerprint == f) = true
      · rw [if_pos h]
      · rw [if_neg h]

/-- The conflict check `authorize_seal` runs reads the same answer before
and after a deactivation. -/
theorem deactivate_any_pair (db : Database) (f idf sfp : String) :
    ((db.deactivate_seal f).2).seal_authorizations.any
      (fun sa => sa.identity_fingerprint == idf && sa.seal_fingerprint == sfp) =
    db.seal_authorizations.any
      (fun sa => sa.identity_fingerprint == idf && sa.seal_fingerprint == sfp) := by
  simp only [Database.deactivate_seal]
  exact any_pair_map_deactivate db.seal_authorizations f idf sfp

/-- Incrementing a nonce never touches the seal table. -/
theorem increment_seal_authorizations (db : Database) (idf : String) :
    ((db.increment_identity_nonce idf).2).seal_authorizations = db.seal_authorizations := by
  simp only [Database.increment_identity_nonce]
  split
  · rfl
  · rfl

/-- A row list whose fingerprint matches are all inactive answers no
`seal_active` query for that fingerprint. -/
theorem seal_active_eq_false_of_inactive (rows : List SealAuth) (idf tsf : String)
    (h : ∀ sa ∈ rows, sa.seal_fingerprint = tsf → sa.is_active = false) :
    rows.any (fun sa => sa.identity_fingerprint == idf &&
      sa.seal_fingerprint == tsf && sa.is_active) = false := by
  rw [List.any_eq_false]
  intro sa hmem hpred
  have hfp : sa.seal_fingerprint = tsf := by
    simp only [Bool.and_eq_true, beq_iff_eq] at hpred
    tauto
  have hact : sa.is_active = true := by
    simp only [Bool.and_eq_true] at hpred
    tauto
  rw [h sa hmem hfp] at hact
  cases hact

/-- Everything an accepted seal-rotation processing run pins down: the
payload validated, the new key decoded, the signing seal had an active
authorization row, and the final database is deactivate-authorize-increment
applied in order. -/
theorem process_rotation_true_elim (verify : VerifyFn) (db : Database)
    (tx : Transaction) (db' : Database)
    (htype : tx.payload.type = TransactionType.seal_rotation)
    (happ : Validator.process_transaction verify db tx = (true, db')) :
    ∃ (rd : SealRotationData) (pkB : Bytes),
      SealRotationData.model_validate tx.payload.data = some rd ∧
      b64decode rd.new_seal_public_key = some pkB ∧
      db.identities.contains tx.public_key = true ∧
      (∃ row ∈ db.seal_authorizations,
        row.identity_fingerprint = tx.public_key ∧
        row.seal_fingerprint = tx.seal_fingerprint ∧ row.is_active = true) ∧
      db' = ((((db.deactivate_seal tx.seal_fingerprint).2).authorize_seal
          tx.public_key rd.new_seal_fingerprint pkB).2.increment_identity_nonce
          tx.public_key).2 := by
  simp only [Validator.process_transaction] at happ
  split at happ
  · simp at happ
  · rename_i pkBytes hgate
    have hgate' := hgate
    simp only [Database.get_authorized_seal_public_key] at hgate'
    split at hgate'
    · rename_i hcont
      have hrow : ∃ row ∈ db.seal_authorizations,
          row.identity_fingerprint = tx.public_key ∧
          row.seal_fingerprint = tx.seal_fingerprint ∧ row.is_active = true := by
        cases hf : db.seal_authorizations.find? (fun sa =>
            sa.identity_fingerprint == tx.public_key &&
            sa.seal_fingerprint == tx.seal_fingerprint && sa.is_active) with
        | none =>
            rw [hf] at hgate'
            cases hgate'
        | some sa =>
            have hpred := List.find?_some hf
            have hmem := List.mem_of_find?_eq_some hf
            refine ⟨sa, hmem, ?_, ?_, ?_⟩
            · simp only [Bool.and_eq_true, beq_iff_eq] at hpred
              tauto
            · simp only [Bool.and_eq_true, beq_iff_eq] at hpred
              tauto
            · simp only [Bool.and_eq_true] at hpred
              tauto
      split at happ
      · simp at happ
      · split at happ
        · simp at happ
        · rename_i n hn
          split at happ
          · simp at happ
          · split at happ
            · simp at happ
            · rename_i hok
              have hdb' : db' = ((Validator._process_seal_rotation
                  db tx).2.increment_identity_nonce tx.public_key).2 :=
                ((Prod.mk.injEq _ _ _ _).mp happ).2.symm
              have hok' : (Validator._process_seal_rotation db tx).1 = true := by
                cases hh : (Validator._process_seal_rotation db tx).1 with
                | false => exact absurd hh hok
                | true => rfl
              rcases hres : Validator._process_seal_rotation db tx with ⟨ok, db1⟩
              rw [hres] at hok' hdb'
              dsimp only at hok' hdb'
              simp only [Validator._process_seal_rotation] at hres
              split at hres
              · injection hres with h1 h2
                rw [← h1] at hok'
                cases hok'
              · rename_i rd hrd
                split at hres
                · injection hres with h1 h2
                  rw [← h1] at hok'
                  cases hok'
                · rename_i pkB hb64
                  injection hres with h1 h2
                  refine ⟨rd, pkB, hrd, hb64, hcont, hrow, ?_⟩
                  rw [hdb', h2]
    · cases hgate'

/-! ## The claims -/

/-- C10: `Seal.from_seed` is total only for seeds of at most 32 bytes — a
seed strictly shorter than 32 bytes is deterministically replaced by (the
first 32 bytes of) its SHA-256 digest and succeeds, a seed of exactly 32
bytes is used directly and succeeds, and any longer seed makes the ed25519
key constructor raise, because the length guard only hashes short seeds. -/
theorem claim_C10_from_seed_length_guard (seed : Bytes) :
    (seed.length < 32 → Seal.from_seed seed = some ((sha256 seed).take 32)) ∧
    (seed.length = 32 → Seal.from_seed seed = some seed) ∧
    (32 < seed.length → Seal.from_seed seed = none) := by
  refine ⟨fun h => ?_, fun h => ?_, fun h => ?_⟩
  · have hlen : ((sha256 seed).take 32).length = 32 := by
      simp [List.length_take, sha256_length]
    simp [Seal.from_seed, h, ed25519_from_private_bytes, hlen]
  · have h1 : ¬ seed.length < 32 := by omega
    simp [Seal.from_seed, h1, ed25519_from_private_bytes, h]
  · have h1 : ¬ seed.length < 32 := by omega
    have h2 : seed.length ≠ 32 := by omega
    simp [Seal.from_seed, h1, ed25519_from_private_bytes, h2]

/-- C10 witness: the three length regimes at concrete seeds. -/
theorem claim_C10_witness :
    (([] : Bytes).length < 32 ∧ Seal.from_seed [] = some ((sha256 []).take 32)) ∧
    ((List.replicate 32 7 : Bytes).length = 32 ∧
      Seal.from_seed (List.replicate 32 7) = some (List.replicate 32 7)) ∧
    (32 < (List.replicate 33 7 : Bytes).length ∧
      Seal.from_seed (List.replicate 33 7) = none) :=
  ⟨⟨by decide, (claim_C10_from_seed_length_guard []).1 (by decide)⟩,
   ⟨by decide, (claim_C10_from_seed_length_guard (List.replicate 32 7)).2.1 (by decide)⟩,
   ⟨by decide, (claim_C10_from_seed_length_guard (List.replicate 33 7)).2.2 (by decide)⟩⟩

/-- C6: mempool admission is idempotent — adding a transaction whose
`transaction_id` is already present returns `false` and leaves the mempool
unmutated, and adding the same signed transaction twice from any state where
it is absent returns `true` then `false` and grows `size()` by exactly 1. -/
theorem claim_C6_mempool_idempotent_admission (mp : Mempool) (tx : Transaction) (tid : String)
    (hid : tx.transaction_id = some tid) :
    (Mempool.get_transaction mp tid ≠ none →
      Mempool.add_transaction mp tx = some (false, mp)) ∧
    (Mempool.get_transaction mp tid = none →
      Mempool.add_transaction mp tx = some (true, ⟨mp.transactions ++ [(tid, tx)]⟩) ∧
      Mempool.add_transaction ⟨mp.transactions ++ [(tid, tx)]⟩ tx
        = some (false, ⟨mp.transactions ++ [(tid, tx)]⟩) ∧
      Mempool.get_size ⟨mp.transactions ++ [(tid, tx)]⟩ = Mempool.get_size mp + 1) := by
  constructor
  · intro hne
    have hfind : (mp.transactions.find? (fun p => p.1 == tid)).isSome = true := by
      simp only [Mempool.get_transaction] at hne
      cases hf : mp.transactions.find? (fun p => p.1 == tid) with
      | none => rw [hf] at hne; simp at hne
      | some q => simp
    simp [Mempool.add_transaction, hid, hfind]
  · intro heq
    have hfind : mp.transactions.find? (fun p => p.1 == tid) = none := by
      simp only [Mempool.get_transaction] at heq
      cases hf : mp.transactions.find? (fun p => p.1 == tid) with
      | none => rfl
      | some q => rw [hf] at heq; simp at heq
    refine ⟨?_, ?_, ?_⟩
    · simp [Mempool.add_transaction, hid, hfind]
    · simp [Mempool.add_transaction, hid, List.find?_append, hfind, List.find?]
    · simp [Mempool.get_size]

/-- A concrete signable transaction for the mempool witness. -/
def txC6 : Transaction :=
  { public_key := "veilpk:alice", seal_fingerprint := "veilseal:s1",
    payload := { type := .data, data := some [("msg", .str "hi")], timestamp := 7 },
    signature := "c2ln" }

/-- Its transaction id. -/
def tidC6 : String := (txC6.transaction_id).getD ""

/-- C6 witness: the double-add on the empty mempool. -/
theorem claim_C6_witness :
    txC6.transaction_id = some tidC6 ∧
    (Mempool.add_transaction ⟨[]⟩ txC6 = some (true, ⟨[] ++ [(tidC6, txC6)]⟩) ∧
     Mempool.add_transaction ⟨[] ++ [(tidC6, txC6)]⟩ txC6
       = some (false, ⟨[] ++ [(tidC6, txC6)]⟩) ∧
     Mempool.get_size ⟨[] ++ [(tidC6, txC6)]⟩ = Mempool.get_size ⟨[]⟩ + 1) :=
  ⟨by decide,
   (claim_C6_mempool_idempotent_admission ⟨[]⟩ txC6 tidC6 (by decide)).2 (by decide)⟩

/-- C9: for every identity state the active seal fingerprints are a subset of
the historical seal fingerprints, and `add_seal`, `rotate_seal`,
`increment_nonce`, `initialize_identity` and `apply_transaction` each
preserve this invariant. -/
theorem claim_C9_active_seals_subset_all_seals :
    (∀ (st : IdentityState) (s : String),
        st.sealInvariant → (st.add_seal s).sealInvariant) ∧
    (∀ (st : IdentityState) (o n : String),
        st.sealInvariant → (st.rotate_seal o n).sealInvariant) ∧
    (∀ st : IdentityState, st.sealInvariant → st.increment_nonce.sealInvariant) ∧
    (∀ (sm : StateManager) (pk sfp : String) (bal : Int),
        sm.sealInvariant → (sm.initialize_identity pk sfp bal).sealInvariant) ∧
    (∀ (sm : StateManager) (tx : Transaction) (b : Bool) (sm' : StateManager),
        sm.sealInvariant → sm.apply_transaction tx = some (b, sm') →
          sm'.sealInvariant) := by
  refine ⟨sealInvariant_add_seal, sealInvariant_rotate_seal,
    sealInvariant_increment_nonce, ?_, apply_transaction_sealInvariant⟩
  intro sm pk sfp bal hinv
  simp only [StateManager.initialize_identity]
  split
  · exact hinv
  · refine sealInvariant_smSet _ _ _ hinv (sealInvariant_add_seal _ _ ?_)
    intro s hs
    simp at hs

/-- C2: in both the validator pipeline and the in-memory state manager,
acceptance requires the transaction nonce to equal the identity's current
nonce exactly and advances it by exactly one, while any transaction whose
nonce differs from the current nonce (smaller, larger, or for a missing
state row) is rejected without advancing any nonce. -/
theorem claim_C2_nonce_exact_match_and_increment :
    (∀ (verify : VerifyFn) (db : Database) (tx : Transaction) (db' : Database),
        Validator.process_transaction verify db tx = (true, db') →
          db.get_identity_nonce tx.public_key = some tx.nonce ∧
          db'.get_identity_nonce tx.public_key = some (tx.nonce + 1)) ∧
    (∀ (verify : VerifyFn) (db : Database) (tx : Transaction),
        db.get_identity_nonce tx.public_key ≠ some tx.nonce →
          Validator.process_transaction verify db tx = (false, db)) ∧
    (∀ (sm : StateManager) (tx : Transaction) (sm' : StateManager),
        sm.apply_transaction tx = some (true, sm') →
          tx.nonce = smNonce sm tx.public_key ∧
          smNonce sm' tx.public_key = tx.nonce + 1) ∧
    (∀ (sm : StateManager) (tx : Transaction),
        tx.nonce ≠ smNonce sm tx.public_key →
          ∃ sm1 : StateManager, sm.apply_transaction tx = some (false, sm1) ∧
            ∀ pk, smNonce sm1 pk = smNonce sm pk) := by
  refine ⟨?_, process_transaction_nonce_mismatch, ?_, apply_transaction_nonce_mismatch⟩
  · intro verify db tx db' happ
    obtain ⟨db1, hn, h1, h2, hdb'⟩ := process_transaction_true_elim verify db tx db' happ
    refine ⟨hn, ?_⟩
    have hn1 : db1.get_identity_nonce tx.public_key = some tx.nonce := by
      rw [get_identity_nonce_congr db db1 tx.public_key h1 h2, hn]
    rw [hdb']
    exact get_identity_nonce_increment db1 _ _ hn1
  · intro sm tx sm' happ
    simp only [StateManager.apply_transaction] at happ
    split at happ
    case isTrue hex =>
      have hst : ((smLookup sm (some tx.public_key)).getD
          { public_key := some tx.public_key }).nonce = smNonce sm tx.public_key := by
        cases hl : smLookup sm (some tx.public_key) with
        | none =>
            rw [hl] at hex
            simp at hex
        | some st => simp [smNonce, hl]
      split at happ
      · simp at happ
      · split at happ
        · simp at happ
        · rename_i hnn
          have heq : tx.nonce = ((smLookup sm (some tx.public_key)).getD
              { public_key := some tx.public_key }).nonce := by
            by_cases h : tx.nonce = ((smLookup sm (some tx.public_key)).getD
                { public_key := some tx.public_key }).nonce
            · exact h
            · exact absurd h hnn
          obtain ⟨st', hlk, hn'⟩ := apply_type_effects_accepted_nonce _ _ _ _ _ happ
          refine ⟨by rw [heq, hst], ?_⟩
          simp only [smNonce, hlk, hn', heq, hst]
    case isFalse hex =>
      have hl : smLookup sm (some tx.public_key) = none := by
        cases hl : smLookup sm (some tx.public_key) with
        | none => rfl
        | some st =>
            rw [hl] at hex
            simp at hex
      split at happ
      · simp at happ
      · rename_i hauth
        exact absurd (by rw [smLookup_smSet]; simp [IdentityState.can_authorize]) hauth

/-- A concrete database for the C2 witness: one identity with one active
seal at nonce 0. -/
def dbC2 : Database :=
  { identities := ["veilpk:alice"],
    seal_authorizations := [⟨"veilpk:alice", "veilseal:s1", strBytes "PEMKEY", 1, true⟩],
    identity_state := [("veilpk:alice", 0)] }

/-- The post state after one accepted transaction. -/
def dbC2' : Database := { dbC2 with identity_state := [("veilpk:alice", 1)] }

/-- A verification primitive that accepts everything, for concrete runs. -/
def verifyAll : VerifyFn := fun _ _ _ => true

/-- A data transaction at the matching nonce 0. -/
def txC2 : Transaction :=
  { public_key := "veilpk:alice", seal_fingerprint := "veilseal:s1",
    payload := { type := .data, data := some [("m", .str "x")], timestamp := 1 },
    signature := "" }

/-- The same transaction at the gapped nonce 5. -/
def txC2bad : Transaction := { txC2 with nonce := 5 }

/-- The C2 state-manager pre state. -/
def stC2 : IdentityState :=
  { public_key := some "veilpk:alice", active_seals := ["veilseal:s1"],
    all_seals := ["veilseal:s1"] }

/-- The C2 state-manager pre state as a manager. -/
def smC2 : StateManager := ⟨[(some "veilpk:alice", stC2)]⟩

/-- The C2 state-manager post state. -/
def smC2' : StateManager :=
  ⟨[(some "veilpk:alice",
     { stC2 with data_store := [("m", .str "x")], nonce := 1 })]⟩

/-- C2 witness: a concrete accepted run advances the nonce from 0 to 1 in
both pipelines, and a nonce-5 submission is rejected without advancing. -/
theorem claim_C2_witness :
    (dbC2.get_identity_nonce txC2.public_key = some txC2.nonce ∧
      dbC2'.get_identity_nonce txC2.public_key = some (txC2.nonce + 1)) ∧
    Validator.process_transaction verifyAll dbC2 txC2bad = (false, dbC2) ∧
    (txC2.nonce = smNonce smC2 txC2.public_key ∧
      smNonce smC2' txC2.public_key = txC2.nonce + 1) ∧
    (∃ sm1 : StateManager, smC2.apply_transaction txC2bad = some (false, sm1) ∧
      ∀ pk, smNonce sm1 pk = smNonce smC2 pk) :=
  ⟨claim_C2_nonce_exact_match_and_increment.1 verifyAll dbC2 txC2 dbC2' (by decide),
   claim_C2_nonce_exact_match_and_increment.2.1 verifyAll dbC2 txC2bad (by decide),
   claim_C2_nonce_exact_match_and_increment.2.2.1 smC2 txC2 smC2' (by decide),
   claim_C2_nonce_exact_match_and_increment.2.2.2 smC2 txC2bad (by decide)⟩

/-- C8: an accepted `data` transaction always carries a cleartext payload
map, merges every key of that map into the signing identity's data store
with last-write-wins per key, and leaves every other identity's state
untouched; a `data` transaction without a cleartext map (the encrypted
form) is never accepted with a key-by-key merge. -/
theorem claim_C8_data_merge_last_write_wins (sm : StateManager) (tx : Transaction)
    (htype : tx.payload.type = TransactionType.data) :
    (∀ sm' : StateManager, sm.apply_transaction tx = some (true, sm') →
      ∃ d : List (String × JValue), tx.payload.data = some d ∧
        (∀ k : String,
          jlookup (((smLookup sm' (some tx.public_key)).getD
              { public_key := some tx.public_key }).data_store) k =
            match lwwLookup d k with
            | some v => some v
            | none => jlookup (((smLookup sm (some tx.public_key)).getD
                { public_key := some tx.public_key }).data_store) k) ∧
        (∀ k' : IdKey, k' ≠ some tx.public_key → smLookup sm' k' = smLookup sm k')) ∧
    (tx.payload.data = none →
      ∀ sm' : StateManager, sm.apply_transaction tx ≠ some (true, sm')) := by
  have hmain : ∀ sm' : StateManager, sm.apply_transaction tx = some (true, sm') →
      ∃ d : List (String × JValue), tx.payload.data = some d ∧
        (∀ k : String,
          jlookup (((smLookup sm' (some tx.public_key)).getD
              { public_key := some tx.public_key }).data_store) k =
            match lwwLookup d k with
            | some v => some v
            | none => jlookup (((smLookup sm (some tx.public_key)).getD
                { public_key := some tx.public_key }).data_store) k) ∧
        (∀ k' : IdKey, k' ≠ some tx.public_key → smLookup sm' k' = smLookup sm k') := by
    intro sm' happ
    simp only [StateManager.apply_transaction] at happ
    split at happ
    case isTrue hex =>
      split at happ
      · simp at happ
      · split at happ
        · simp at happ
        · simp only [StateManager.apply_type_effects, htype] at happ
          split at happ
          · cases happ
          · rename_i d hd
            cases happ
            refine ⟨d, hd, ?_, ?_⟩
            · intro k
              rw [smLookup_smSet, if_pos rfl]
              simp only [Option.getD_some, IdentityState.increment_nonce]
              exact jlookup_mergeStore _ d k
            · intro k' hk'
              rw [smLookup_smSet, if_neg hk']
    case isFalse hex =>
      split at happ
      · simp at happ
      · rename_i hauth
        exact absurd (by rw [smLookup_smSet]; simp [IdentityState.can_authorize]) hauth
  refine ⟨hmain, ?_⟩
  intro hnone sm' happ
  obtain ⟨d, hd, _⟩ := hmain sm' happ
  rw [hnone] at hd
  cases hd

/-- The C8 witness pre state: a data store with two keys. -/
def stC8 : IdentityState :=
  { public_key := some "veilpk:alice", active_seals := ["veilseal:s1"],
    all_seals := ["veilseal:s1"],
    data_store := [("a", .str "old"), ("b", .str "keep")] }

/-- The C8 witness manager. -/
def smC8 : StateManager := ⟨[(some "veilpk:alice", stC8)]⟩

/-- A data transaction overwriting one key and adding another. -/
def txC8 : Transaction :=
  { public_key := "veilpk:alice", seal_fingerprint := "veilseal:s1",
    payload :=
      { type := .data, data := some [("a", .str "new"), ("c", .str "add")], timestamp := 2 },
    signature := "" }

/-- The C8 witness post state: overwritten, kept and added keys. -/
def smC8' : StateManager :=
  ⟨[(some "veilpk:alice",
     { stC8 with
       data_store := [("a", .str "new"), ("b", .str "keep"), ("c", .str "add")],
       nonce := 1 })]⟩

/-- C8 witness: the overwrite / keep / add behavior at a concrete run. -/
theorem claim_C8_witness :
    txC8.payload.type = TransactionType.data ∧
    (∃ d : List (String × JValue), txC8.payload.data = some d ∧
      (∀ k : String,
        jlookup (((smLookup smC8' (some txC8.public_key)).getD
            { public_key := some txC8.public_key }).data_store) k =
          match lwwLookup d k with
          | some v => some v
          | none => jlookup (((smLookup smC8 (some txC8.public_key)).getD
              { public_key := some txC8.public_key }).data_store) k) ∧
      (∀ k' : IdKey, k' ≠ some txC8.public_key →
        smLookup smC8' k' = smLookup smC8 k')) :=
  ⟨by decide,
   (claim_C8_data_merge_last_write_wins smC8 txC8 (by decide)).1 smC8' (by decide)⟩

/-- C5 (amended): a token transfer is accepted only with a strictly positive
amount not exceeding the sender's balance; on acceptance with a recipient
other than the sender, the sender is debited and the recipient credited (a
previously unknown recipient is created with no seals, no data and nonce 0,
holding exactly the credited amount), while a self-transfer (recipient equal
to the sender) is accepted but leaves the balance unchanged; every rejected
token transfer leaves all balances unchanged. -/
theorem claim_C5_token_transfer_amended (sm : StateManager) (tx : Transaction)
    (htype : tx.payload.type = TransactionType.token_transfer) :
    (∀ (d : List (String × JValue)) (amount : Int) (sm' : StateManager),
      tx.payload.data = some d → amountOf d = some amount →
      sm.apply_transaction tx = some (true, sm') →
        0 < amount ∧ amount ≤ smBalance sm (some tx.public_key) ∧
        (recipientOf d ≠ some tx.public_key →
          smBalance sm' (some tx.public_key)
              = smBalance sm (some tx.public_key) - amount ∧
          smBalance sm' (recipientOf d) = smBalance sm (recipientOf d) + amount ∧
          (smLookup sm (recipientOf d) = none →
            ∃ rst : IdentityState, smLookup sm' (recipientOf d) = some rst ∧
              rst.balance = amount ∧ rst.active_seals = [] ∧ rst.all_seals = [] ∧
              rst.data_store = [] ∧ rst.nonce = 0)) ∧
        (recipientOf d = some tx.public_key →
          smBalance sm' (some tx.public_key) = smBalance sm (some tx.public_key))) ∧
    (∀ sm1 : StateManager, sm.apply_transaction tx = some (false, sm1) →
      ∀ k : IdKey, smBalance sm1 k = smBalance sm k) := by
  constructor
  · intro d amount sm' hdata hamt happ
    simp only [StateManager.apply_transaction] at happ
    split at happ
    case isFalse hex =>
      split at happ
      · simp at happ
      · rename_i hauth
        exact absurd (by rw [smLookup_smSet]; simp [IdentityState.can_authorize]) hauth
    case isTrue hex =>
    split at happ
    · simp at happ
    · split at happ
      · simp at happ
      · simp only [StateManager.apply_type_effects, htype] at happ
        split at happ
        · rename_i hd0
          rw [hdata] at hd0
          cases hd0
        · rename_i d0 hd0
          rw [hdata] at hd0
          cases hd0
          simp only [StateManager.apply_token_transfer] at happ
          split at happ
          · rename_i hamt0
            rw [hamt] at hamt0
            cases hamt0
          · rename_i amount0 hamt0
            rw [hamt] at hamt0
            cases hamt0
            split at happ
            · simp at happ
            · rename_i hok
              cases happ
              obtain ⟨st0, hst0⟩ :
                  ∃ st0 : IdentityState, smLookup sm (some tx.public_key) = some st0 := by
                cases hl : smLookup sm (some tx.public_key) with
                | none =>
                    rw [hl] at hex
                    simp at hex
                | some st0 => exact ⟨st0, rfl⟩
              rw [hst0] at hok ⊢
              simp only [Option.getD_some] at hok ⊢
              have hbal : smBalance sm (some tx.public_key) = st0.balance := by
                simp [smBalance, hst0]
              refine ⟨by omega, by rw [hbal]; omega, fun hr => ?_, fun hr => ?_⟩
              · -- recipient differs from the sender
                have hrk : ¬ ((some tx.public_key : IdKey) = recipientOf d) :=
                  fun h => hr h.symm
                have hlk2 : smLookup (smSet sm (some tx.public_key)
                    { st0 with balance := st0.balance - amount }) (recipientOf d)
                      = smLookup sm (recipientOf d) := by
                  rw [smLookup_smSet, if_neg hr]
                rw [hlk2]
                cases hlr : smLookup sm (recipientOf d) with
                | some str =>
                    refine ⟨?_, ?_, ?_⟩
                    · simp [smBalance, smLookup_smSet, hrk, hst0,
                        IdentityState.increment_nonce]
                    · simp [smBalance, smLookup_smSet, hr, hlr, hst0,
                        IdentityState.increment_nonce]
                    · intro hnone
                      cases hnone
                | none =>
                    refine ⟨?_, ?_, ?_⟩
                    · simp [smBalance, smLookup_smSet, hrk, hr, hst0,
                        IdentityState.increment_nonce]
                    · simp [smBalance, smLookup_smSet, hr, hrk, hlr, hst0,
                        IdentityState.increment_nonce]
                    · intro hnone
                      exact ⟨{ public_key := recipientOf d, balance := amount, active_seals := [], all_seals := [], data_store := [], nonce := 0 }, by simp [smLookup_smSet, hrk, hr], rfl, rfl, rfl, rfl, rfl⟩
              · -- self transfer: recipient is the sender
                rw [hr]
                simp [smBalance, smLookup_smSet, hst0, IdentityState.increment_nonce]
  · intro sm1 happ
    simp only [StateManager.apply_transaction] at happ
    split at happ
    case isTrue hex =>
      split at happ
      · cases happ
        intro k
        rfl
      · split at happ
        · cases happ
          intro k
          rfl
        · simp only [StateManager.apply_type_effects, htype] at happ
          split at happ
          · cases happ
          · simp only [StateManager.apply_token_transfer] at happ
            split at happ
            · cases happ
            · split at happ
              · cases happ
                intro k
                rfl
              · simp at happ
    case isFalse hex =>
      have hl : smLookup sm (some tx.public_key) = none := by
        cases hl : smLookup sm (some tx.public_key) with
        | none => rfl
        | some st =>
            rw [hl] at hex
            simp at hex
      have hframe : ∀ k : IdKey, smBalance (smSet sm (some tx.public_key)
          { public_key := some tx.public_key }) k = smBalance sm k := by
        intro k
        simp only [smBalance]
        rw [smLookup_smSet]
        by_cases he : k = (some tx.public_key : IdKey)
        · rw [if_pos he, he, hl]
        · rw [if_neg he]
      split at happ
      · cases happ
        exact hframe
      · rename_i hauth
        exact absurd (by rw [smLookup_smSet]; simp [IdentityState.can_authorize]) hauth

/-- The C5 sender: balance 5, one active seal, nonce 0. -/
def stC5 : IdentityState :=
  { public_key := some "veilpk:alice", balance := 5,
    active_seals := ["veilseal:s1"], all_seals := ["veilseal:s1"] }

/-- The C5 pre state. -/
def smC5 : StateManager := ⟨[(some "veilpk:alice", stC5)]⟩

/-- A self-transfer of 3 tokens: recipient equals the sender. -/
def txC5self : Transaction :=
  { public_key := "veilpk:alice", seal_fingerprint := "veilseal:s1",
    payload :=
      { type := .token_transfer,
        data := some [("amount", .int 3), ("recipient", .str "veilpk:alice")],
        timestamp := 4 },
    signature := "" }

/-- The state after the accepted self-transfer: balance still 5. -/
def smC5self' : StateManager := ⟨[(some "veilpk:alice", { stC5 with nonce := 1 })]⟩

/-- C5 counterexample: the claim says an accepted transfer decreases the
sender's balance by the amount, but a self-transfer of 3 from balance 5 is
accepted and leaves the balance at 5, not 2. -/
theorem claim_C5_counterexample :
    smC5.apply_transaction txC5self = some (true, smC5self') ∧
    amountOf [("amount", .int 3), ("recipient", .str "veilpk:alice")] = some 3 ∧
    ((0 : Int) < 3) ∧
    smBalance smC5 (some "veilpk:alice") = 5 ∧
    smBalance smC5self' (some "veilpk:alice") = 5 ∧
    ¬ smBalance smC5self' (some "veilpk:alice")
        = smBalance smC5 (some "veilpk:alice") - 3 := by decide

/-- A normal transfer of 3 tokens to the unknown identity bob. -/
def txC5 : Transaction :=
  { public_key := "veilpk:alice", seal_fingerprint := "veilseal:s1",
    payload :=
      { type := .token_transfer,
        data := some [("amount", .int 3), ("recipient", .str "veilpk:bob")],
        timestamp := 4 },
    signature := "" }

/-- Its payload dict. -/
def dC5 : List (String × JValue) := [("amount", .int 3), ("recipient", .str "veilpk:bob")]

/-- The post state: alice debited to 2, bob created and credited to 3. -/
def smC5' : StateManager :=
  ⟨[(some "veilpk:alice", { stC5 with balance := 2, nonce := 1 }),
    (some "veilpk:bob", { public_key := some "veilpk:bob", balance := 3 })]⟩

/-- An overdraft: 100 tokens from balance 5, rejected. -/
def txC5big : Transaction :=
  { public_key := "veilpk:alice", seal_fingerprint := "veilseal:s1",
    payload :=
      { type := .token_transfer,
        data := some [("amount", .int 100), ("recipient", .str "veilpk:bob")],
        timestamp := 4 },
    signature := "" }

/-- C5 witness: a concrete accepted transfer to a fresh recipient and a
concrete insufficient-funds rejection, through the amended theorem. -/
theorem claim_C5_witness :
    (0 < (3 : Int) ∧ (3 : Int) ≤ smBalance smC5 (some txC5.public_key) ∧
      (recipientOf dC5 ≠ some txC5.public_key →
        smBalance smC5' (some txC5.public_key)
            = smBalance smC5 (some txC5.public_key) - 3 ∧
        smBalance smC5' (recipientOf dC5) = smBalance smC5 (recipientOf dC5) + 3 ∧
        (smLookup smC5 (recipientOf dC5) = none →
          ∃ rst : IdentityState, smLookup smC5' (recipientOf dC5) = some rst ∧
            rst.balance = 3 ∧ rst.active_seals = [] ∧ rst.all_seals = [] ∧
            rst.data_store = [] ∧ rst.nonce = 0)) ∧
      (recipientOf dC5 = some txC5.public_key →
        smBalance smC5' (some txC5.public_key)
            = smBalance smC5 (some txC5.public_key))) ∧
    (∀ k : IdKey, smBalance smC5 k = smBalance smC5 k) :=
  ⟨(claim_C5_token_transfer_amended smC5 txC5 (by decide)).1 dC5 3 smC5'
      (by decide) (by decide) (by decide),
   (claim_C5_token_transfer_amended smC5 txC5big (by decide)).2 smC5 (by decide)⟩

/-- A seal rotation whose `new_seal_public_key` is the string `"a"`, which
`base64.b64decode` rejects (one data character cannot be 1 more than a
multiple of 4). -/
def txC1 : Transaction :=
  { public_key := "veilpk:alice", seal_fingerprint := "veilseal:s1",
    payload :=
      { type := .seal_rotation,
        data := some [("new_seal_fingerprint", .str "veilseal:s2"),
                      ("new_seal_public_key", .str "a")],
        timestamp := 1 },
    signature := "" }

/-- C1: the code violates all-or-nothing rejection. A rotation signed by the
active seal `s1` at the correct nonce whose new seal key fails base64
decoding is rejected (`process_transaction` returns false), yet the
database is mutated: the signing seal has been deactivated, because
`_process_seal_rotation` calls `deactivate_seal` before decoding the new
key and the surrounding `try` swallows the decode error afterwards. -/
theorem claim_C1_rejected_rotation_still_deactivates_seal :
    (Validator.process_transaction verifyAll dbC2 txC1).1 = false ∧
    dbC2.seal_active "veilpk:alice" "veilseal:s1" = true ∧
    (Validator.process_transaction verifyAll dbC2 txC1).2.seal_active
      "veilpk:alice" "veilseal:s1" = false ∧
    (Validator.process_transaction verifyAll dbC2 txC1).2 ≠ dbC2 := by decide

/-- A concrete identity state with one active seal for the C9 witness. -/
def stC9 : IdentityState :=
  { public_key := some "veilpk:alice", balance := 5,
    active_seals := ["veilseal:s1"], all_seals := ["veilseal:s1", "veilseal:s0"] }

/-- A concrete manager holding it. -/
def smC9 : StateManager := ⟨[(some "veilpk:alice", stC9)]⟩

/-- A data transaction it accepts. -/
def txC9 : Transaction :=
  { public_key := "veilpk:alice", seal_fingerprint := "veilseal:s1",
    payload := { type := .data, data := some [("k", .str "v")], timestamp := 3 },
    signature := "" }

/-- C9 witness: each preservation statement applied at a concrete state. -/
theorem claim_C9_witness :
    (stC9.sealInvariant ∧ (stC9.add_seal "veilseal:s2").sealInvariant) ∧
    (stC9.rotate_seal "veilseal:s1" "veilseal:s2").sealInvariant ∧
    stC9.increment_nonce.sealInvariant ∧
    (smC9.sealInvariant ∧
      (smC9.initialize_identity "veilpk:bob" "veilseal:b1" 0).sealInvariant) ∧
    (smC9.apply_transaction txC9 =
        some (true, smSet smC9 (some "veilpk:alice")
          ({ stC9 with data_store := mergeStore stC9.data_store [("k", .str "v")] }).increment_nonce) ∧
      (smSet smC9 (some "veilpk:alice")
          ({ stC9 with data_store := mergeStore stC9.data_store [("k", .str "v")] }).increment_nonce).sealInvariant) :=
  ⟨⟨by decide, claim_C9_active_seals_subset_all_seals.1 stC9 "veilseal:s2" (by decide)⟩,
   claim_C9_active_seals_subset_all_seals.2.1 stC9 "veilseal:s1" "veilseal:s2" (by decide),
   claim_C9_active_seals_subset_all_seals.2.2.1 stC9 (by decide),
   ⟨by decide,
    claim_C9_active_seals_subset_all_seals.2.2.2.1 smC9 "veilpk:bob" "veilseal:b1" 0
      (by decide)⟩,
   ⟨by decide,
    claim_C9_active_seals_subset_all_seals.2.2.2.2 smC9 txC9 true _ (by decide)
      (by decide)⟩⟩

/-- A well-formed seal rotation for `veilpk:alice`: valid payload fields and
a base64-decodable new seal public key. -/
def txC3 : Transaction :=
  { public_key := "veilpk:alice", seal_fingerprint := "veilseal:s1",
    payload :=
      { type := .seal_rotation,
        data := some [("new_seal_fingerprint", .str "veilseal:s2"),
                      ("new_seal_public_key", .str (b64encode (strBytes "PEM2")))],
        timestamp := 1 },
    signature := "" }

/-- C3 (amended): a seal rotation with a missing/non-string payload field or
an undecodable new seal key is rejected, and an accepted rotation
deactivates every authorization row bearing the signing seal fingerprint
and — when the `(identity, new seal)` pair is not already in the table —
authorizes the new seal for the signing identity as an active row at
version 1 (the `authorize_seal` default), not at the old seal version
plus one as the spec states. -/
theorem claim_C3_seal_rotation_amended (verify : VerifyFn) (db : Database)
    (tx : Transaction) (htype : tx.payload.type = TransactionType.seal_rotation) :
    (SealRotationData.model_validate tx.payload.data = none →
      (Validator.process_transaction verify db tx).1 = false) ∧
    (∀ rd : SealRotationData, SealRotationData.model_validate tx.payload.data = some rd →
      b64decode rd.new_seal_public_key = none →
      (Validator.process_transaction verify db tx).1 = false) ∧
    (∀ db' : Database, Validator.process_transaction verify db tx = (true, db') →
      ∃ rd : SealRotationData, SealRotationData.model_validate tx.payload.data = some rd ∧
        (∀ idf : String, db'.seal_active idf tx.seal_fingerprint = false) ∧
        (db.seal_authorizations.any (fun sa =>
            sa.identity_fingerprint == tx.public_key &&
            sa.seal_fingerprint == rd.new_seal_fingerprint) = false →
          db'.seal_active tx.public_key rd.new_seal_fingerprint = true ∧
          db'.seal_version tx.public_key rd.new_seal_fingerprint = some 1)) := by
  refine ⟨?_, ?_, ?_⟩
  · intro hmv
    cases hp : Validator.process_transaction verify db tx with
    | mk b dbx =>
      cases b with
      | false => rfl
      | true =>
        obtain ⟨rd, pkB, hrd, -, -, -, -⟩ :=
          process_rotation_true_elim verify db tx dbx htype hp
        rw [hmv] at hrd
        cases hrd
  · intro rd hrd hb64
    cases hp : Validator.process_transaction verify db tx with
    | mk b dbx =>
      cases b with
      | false => rfl
      | true =>
        obtain ⟨rd', pkB, hrd', hb64', -, -, -⟩ :=
          process_rotation_true_elim verify db tx dbx htype hp
        rw [hrd] at hrd'
        injection hrd' with he
        rw [← he] at hb64'
        rw [hb64] at hb64'
        cases hb64'
  · intro db' hp
    obtain ⟨rd, pkB, hrd, hb64, hcont, ⟨row, hrmem, hrid, hrfp, hract⟩, hdb'⟩ :=
      process_rotation_true_elim verify db tx db' htype hp
    refine ⟨rd, hrd, ?_, ?_⟩
    · intro idf
      rw [hdb']
      simp only [Database.seal_active, increment_seal_authorizations]
      simp only [Database.authorize_seal]
      split
      · exact seal_active_eq_false_of_inactive _ idf tx.seal_fingerprint
          (fun sa hm hfp => mem_deactivate_inactive db tx.seal_fingerprint sa hm hfp)
      · split
        · exact seal_active_eq_false_of_inactive _ idf tx.seal_fingerprint
            (fun sa hm hfp => mem_deactivate_inactive db tx.seal_fingerprint sa hm hfp)
        · rename_i hc1 hc2
          have hne : rd.new_seal_fingerprint ≠ tx.seal_fingerprint := by
            intro he
            apply hc2
            rw [deactivate_any_pair]
            refine List.any_eq_true.mpr ⟨row, hrmem, ?_⟩
            rw [he, hrid, hrfp]
            simp
          rw [List.any_append]
          rw [seal_active_eq_false_of_inactive _ idf tx.seal_fingerprint
            (fun sa hm hfp => mem_deactivate_inactive db tx.seal_fingerprint sa hm hfp)]
          simp [beq_eq_false_iff_ne.mpr hne]
    · intro hfresh
      have hc2' : ((db.deactivate_seal tx.seal_fingerprint).2).seal_authorizations.any
          (fun sa => sa.identity_fingerprint == tx.public_key &&
            sa.seal_fingerprint == rd.new_seal_fingerprint) = false := by
        rw [deactivate_any_pair]
        exact hfresh
      have hArows : (((db.deactivate_seal tx.seal_fingerprint).2).authorize_seal
          tx.public_key rd.new_seal_fingerprint pkB).2.seal_authorizations =
          ((db.deactivate_seal tx.seal_fingerprint).2).seal_authorizations ++
            [⟨tx.public_key, rd.new_seal_fingerprint, pkB, 1, true⟩] := by
        have hcont1 : ((db.deactivate_seal
            tx.seal_fingerprint).2).identities.contains tx.public_key = true := hcont
        simp only [Database.authorize_seal]
        rw [if_neg (not_not_intro hcont1), if_neg (by rw [hc2']; exact Bool.false_ne_true)]
      constructor
      · rw [hdb']
        simp only [Database.seal_active, increment_seal_authorizations, hArows,
          List.any_append]
        simp
      · rw [hdb']
        have hfn : ((db.deactivate_seal tx.seal_fingerprint).2).seal_authorizations.find?
            (fun sa => sa.identity_fingerprint == tx.public_key &&
              sa.seal_fingerprint == rd.new_seal_fingerprint) = none :=
          List.find?_eq_none.mpr (List.any_eq_false.mp hc2')
        simp only [Database.seal_version, increment_seal_authorizations, hArows,
          List.find?_append, hfn]
        simp

/-- C3 counterexample: the accepted rotation `txC3` replaces seal `s1`
(stored at version 1) by `s2`, yet the new row is stored at version 1, not
at the spec-mandated old version + 1 = 2. -/
theorem claim_C3_counterexample :
    (Validator.process_transaction verifyAll dbC2 txC3).1 = true ∧
    dbC2.seal_version "veilpk:alice" "veilseal:s1" = some 1 ∧
    (Validator.process_transaction verifyAll dbC2 txC3).2.seal_version
      "veilpk:alice" "veilseal:s2" = some 1 ∧
    (Validator.process_transaction verifyAll dbC2 txC3).2.seal_version
      "veilpk:alice" "veilseal:s2" ≠ some (1 + 1) := by decide

/-- C3 witness: the amended theorem applied to the concrete rotation
`txC3` against `dbC2`. -/
theorem claim_C3_witness :
    txC3.payload.type = TransactionType.seal_rotation ∧
    ((SealRotationData.model_validate txC3.payload.data = none →
        (Validator.process_transaction verifyAll dbC2 txC3).1 = false) ∧
      (∀ rd : SealRotationData, SealRotationData.model_validate txC3.payload.data = some rd →
        b64decode rd.new_seal_public_key = none →
        (Validator.process_transaction verifyAll dbC2 txC3).1 = false) ∧
      (∀ db' : Database, Validator.process_transaction verifyAll dbC2 txC3 = (true, db') →
        ∃ rd : SealRotationData, SealRotationData.model_validate txC3.payload.data = some rd ∧
          (∀ idf : String, db'.seal_active idf txC3.seal_fingerprint = false) ∧
          (dbC2.seal_authorizations.any (fun sa =>
              sa.identity_fingerprint == txC3.public_key &&
              sa.seal_fingerprint == rd.new_seal_fingerprint) = false →
            db'.seal_active txC3.public_key rd.new_seal_fingerprint = true ∧
            db'.seal_version txC3.public_key rd.new_seal_fingerprint = some 1))) :=
  ⟨rfl, claim_C3_seal_rotation_amended verifyAll dbC2 txC3 rfl⟩

/-- A plain data transaction for exercising the transaction id. -/
def txC4 : Transaction :=
  { public_key := "veilpk:carol", seal_fingerprint := "veilseal:c1",
    payload := { type := .data, timestamp := 5 }, signature := "c2ln" }

/-- C4 (amended): `transaction_id` is `"veiltx:"` — not the documented
`"tx:"` — followed by the hex SHA-256 of the canonical bytes; the signature
is excluded (changing it changes neither the canonical bytes nor the id),
and any two transactions agreeing on the five signed fields share an id. -/
theorem claim_C4_transaction_id_amended (tx : Transaction) :
    (∀ bs : Bytes, tx.to_bytes = some bs →
      tx.transaction_id = some ("veiltx:" ++ hexOfBytes (sha256 bs))) ∧
    (∀ sig : String, ({ tx with signature := sig } : Transaction).to_bytes = tx.to_bytes ∧
      ({ tx with signature := sig } : Transaction).transaction_id = tx.transaction_id) ∧
    (∀ tx' : Transaction, tx'.public_key = tx.public_key →
      tx'.seal_fingerprint = tx.seal_fingerprint → tx'.payload = tx.payload →
      tx'.nonce = tx.nonce → tx'.version = tx.version →
      tx'.transaction_id = tx.transaction_id) := by
  refine ⟨?_, ?_, ?_⟩
  · intro bs hbs
    simp only [Transaction.transaction_id]
    rw [hbs]
    rfl
  · intro sig
    exact ⟨rfl, rfl⟩
  · intro tx' h1 h2 h3 h4 h5
    have hb : tx'.to_bytes = tx.to_bytes := by
      rcases tx' with ⟨pk', sf', p', sig', n', v'⟩
      rcases tx with ⟨pk, sf, p, sig, n, v⟩
      simp only at h1 h2 h3 h4 h5
      subst h1
      subst h2
      subst h3
      subst h4
      subst h5
      rfl
    simp only [Transaction.transaction_id, hb]

/-- C4 counterexample: the concrete transaction id carries the `"veiltx:"`
prefix and differs from the spec string built with the `"tx:"` prefix. -/
theorem claim_C4_counterexample :
    txC4.transaction_id =
      some ("veiltx:" ++ hexOfBytes (sha256 ((txC4.to_bytes).getD []))) ∧
    txC4.transaction_id ≠
      some ("tx:" ++ hexOfBytes (sha256 ((txC4.to_bytes).getD []))) := by decide

/-- C4 witness: the amended theorem at `txC4`, with the canonical bytes
hypothesis discharged by evaluation and the field equalities by `rfl`. -/
theorem claim_C4_witness :
    (txC4.to_bytes = some ((txC4.to_bytes).getD []) ∧
      txC4.transaction_id =
        some ("veiltx:" ++ hexOfBytes (sha256 ((txC4.to_bytes).getD [])))) ∧
    ({ txC4 with signature := "zzz" } : Transaction).transaction_id = txC4.transaction_id ∧
    txC4.transaction_id = txC4.transaction_id :=
  ⟨⟨by decide, (claim_C4_transaction_id_amended txC4).1 ((txC4.to_bytes).getD [])
      (by decide)⟩,
   ((claim_C4_transaction_id_amended txC4).2.1 "zzz").2,
   (claim_C4_transaction_id_amended txC4).2.2 txC4 rfl rfl rfl rfl rfl⟩

instance {ε α : Type} [DecidableEq ε] [DecidableEq α] : DecidableEq (Except ε α) := fun a b =>
  match a, b with
  | .error e, .error f =>
      if h : e = f then .isTrue (by rw [h]) else .isFalse (by intro hh; cases hh; exact h rfl)
  | .ok x, .ok y =>
      if h : x = y then .isTrue (by rw [h]) else .isFalse (by intro hh; cases hh; exact h rfl)
  | .error _, .ok _ => .isFalse (by intro hh; cases hh)
  | .ok _, .error _ => .isFalse (by intro hh; cases hh)

/-- `zipXor` truncates to the shorter operand. -/
theorem zipXor_length (a b : Bytes) : (zipXor a b).length = min a.length b.length := by
  simp [zipXor]

/-- The CTR keystream has exactly the requested length. -/
theorem gcmKeystream_length (key iv : Bytes) (n : Nat) :
    (gcmKeystream key iv n).length = n := by
  simp [gcmKeystream]

/-- GCM tags are 16 bytes. -/
theorem gcmTag_length (key iv ct : Bytes) : (gcmTag key iv ct).length = 16 := by
  simp [gcmTag, be16]

/-- XOR-ing the same keystream twice is the identity on the plaintext. -/
theorem zipXor_cancel (P ks : Bytes) (h : P.length ≤ ks.length) :
    zipXor (zipXor P ks) ks = P := by
  induction P generalizing ks with
  | nil => rfl
  | cons p P ih =>
      cases ks with
      | nil => simp at h
      | cons k ks =>
          simp only [zipXor, List.zipWith_cons_cons]
          rw [Nat.xor_cancel_right]
          have hle : P.length ≤ ks.length := by simpa using h
          have hih := ih ks hle
          simp only [zipXor] at hih
          rw [hih]

/-- `decrypt` on a well-formed `nonce || ct || tag` blob whose tag matches
recovers whatever the keystream XOR maps the ciphertext back to. -/
theorem decrypt_append_ok (P key nonce ct tag : Bytes) (hn : nonce.length = 12)
    (hct : ct.length = P.length) (htag : tag.length = 16)
    (htageq : gcmTag key nonce ct = tag)
    (hback : zipXor ct (gcmKeystream key nonce ct.length) = P) :
    PayloadEncryptor.decrypt (nonce ++ (ct ++ tag)) key = .ok P := by
  simp only [PayloadEncryptor.decrypt]
  have hlt : ¬ (nonce ++ (ct ++ tag)).length <
      PayloadEncryptor.NONCE_SIZE + PayloadEncryptor.TAG_SIZE := by
    simp only [List.length_append, hn, hct, htag, PayloadEncryptor.NONCE_SIZE,
      PayloadEncryptor.TAG_SIZE]
    omega
  rw [if_neg hlt]
  have h12 : PayloadEncryptor.NONCE_SIZE = nonce.length := by
    show 12 = nonce.length
    exact hn.symm
  have htk : (nonce ++ (ct ++ tag)).take PayloadEncryptor.NONCE_SIZE = nonce := by
    rw [h12]
    exact List.take_left nonce (ct ++ tag)
  have hdr : (nonce ++ (ct ++ tag)).drop PayloadEncryptor.NONCE_SIZE = ct ++ tag := by
    rw [h12]
    exact List.drop_left nonce (ct ++ tag)
  rw [htk, hdr]
  have hdec : aesgcmDecrypt key nonce (ct ++ tag) = some P := by
    simp only [aesgcmDecrypt]
    have hl16 : ¬ (ct ++ tag).length < 16 := by
      simp only [List.length_append, htag]
      omega
    rw [if_neg hl16]
    have hsub : (ct ++ tag).length - 16 = ct.length := by
      simp only [List.length_append, htag]
      omega
    rw [hsub, List.take_left, List.drop_left, if_pos htageq, hback]
  rw [hdec]

/-- The encrypt-then-decrypt round trip under any single key. -/
theorem decrypt_encrypt_roundtrip (P key nonce : Bytes) (hn : nonce.length = 12) :
    PayloadEncryptor.decrypt (PayloadEncryptor.encrypt P key nonce) key = .ok P := by
  have hks : (gcmKeystream key nonce P.length).length = P.length :=
    gcmKeystream_length key nonce P.length
  have hct : (zipXor P (gcmKeystream key nonce P.length)).length = P.length := by
    rw [zipXor_length, hks, Nat.min_self]
  have hback : zipXor (zipXor P (gcmKeystream key nonce P.length))
      (gcmKeystream key nonce (zipXor P (gcmKeystream key nonce P.length)).length) = P := by
    rw [hct]
    exact zipXor_cancel P (gcmKeystream key nonce P.length) (le_of_eq hks.symm)
  exact decrypt_append_ok P key nonce _ _ hn hct (gcmTag_length _ _ _) rfl hback

/-- C7: with a 12-byte nonce, decrypting an encryption under the same
seal-derived key returns the plaintext exactly; blobs shorter than
nonce + tag fail with the invalid-format error; any blob whose
recomputed GCM tag mismatches the stored one fails with the
decryption-failed error; and concretely, decrypting an encryption under
the key derived from one seal with the key derived from another seal
fails with the decryption-failed error. -/
theorem claim_C7_encryption_roundtrip (P K nonce : Bytes)
    (hn : nonce.length = PayloadEncryptor.NONCE_SIZE) :
    PayloadEncryptor.decrypt
        (PayloadEncryptor.encrypt P (PayloadEncryptor.derive_key_from_seal K) nonce)
        (PayloadEncryptor.derive_key_from_seal K) = .ok P ∧
    (∀ blob key : Bytes,
      blob.length < PayloadEncryptor.NONCE_SIZE + PayloadEncryptor.TAG_SIZE →
      PayloadEncryptor.decrypt blob key = .error .invalidFormat) ∧
    (∀ blob key : Bytes,
      ¬ blob.length < PayloadEncryptor.NONCE_SIZE + PayloadEncryptor.TAG_SIZE →
      gcmTag key (blob.take PayloadEncryptor.NONCE_SIZE)
          ((blob.drop PayloadEncryptor.NONCE_SIZE).take
            ((blob.drop PayloadEncryptor.NONCE_SIZE).length - 16)) ≠
        (blob.drop PayloadEncryptor.NONCE_SIZE).drop
          ((blob.drop PayloadEncryptor.NONCE_SIZE).length - 16) →
      PayloadEncryptor.decrypt blob key = .error .decryptionFailed) ∧
    PayloadEncryptor.decrypt
        (PayloadEncryptor.encrypt []
          (PayloadEncryptor.derive_key_from_seal (List.replicate 32 1)) (List.range 12))
        (PayloadEncryptor.derive_key_from_seal (List.replicate 32 2)) =
      .error .decryptionFailed := by
  refine ⟨decrypt_encrypt_roundtrip P _ nonce hn, ?_, ?_, ?_⟩
  · intro blob key h
    simp only [PayloadEncryptor.decrypt]
    rw [if_pos h]
  · intro blob key hlen htagne
    simp only [PayloadEncryptor.decrypt]
    rw [if_neg hlen]
    have hdec : aesgcmDecrypt key (blob.take PayloadEncryptor.NONCE_SIZE)
        (blob.drop PayloadEncryptor.NONCE_SIZE) = none := by
      simp only [aesgcmDecrypt]
      have h16 : ¬ (blob.drop PayloadEncryptor.NONCE_SIZE).length < 16 := by
        simp only [List.length_drop]
        simp only [PayloadEncryptor.NONCE_SIZE, PayloadEncryptor.TAG_SIZE] at hlen ⊢
        omega
      rw [if_neg h16, if_neg htagne]
    rw [hdec]
  · decide

/-- C7 witness: the claim applied with the 12-byte nonce `List.range 12`,
plaintext `[1, 2, 3]` and the key derived from a 32-byte seal. -/
theorem claim_C7_witness :
    (List.range 12).length = PayloadEncryptor.NONCE_SIZE ∧
    (PayloadEncryptor.decrypt
        (PayloadEncryptor.encrypt [1, 2, 3]
          (PayloadEncryptor.derive_key_from_seal (List.replicate 32 1)) (List.range 12))
        (PayloadEncryptor.derive_key_from_seal (List.replicate 32 1)) = .ok [1, 2, 3] ∧
      (∀ blob key : Bytes,
        blob.length < PayloadEncryptor.NONCE_SIZE + PayloadEncryptor.TAG_SIZE →
        PayloadEncryptor.decrypt blob key = .error .invalidFormat) ∧
      (∀ blob key : Bytes,
        ¬ blob.length < PayloadEncryptor.NONCE_SIZE + PayloadEncryptor.TAG_SIZE →
        gcmTag key (blob.take PayloadEncryptor.NONCE_SIZE)
            ((blob.drop PayloadEncryptor.NONCE_SIZE).take
              ((blob.drop PayloadEncryptor.NONCE_SIZE).length - 16)) ≠
          (blob.drop PayloadEncryptor.NONCE_SIZE).drop
            ((blob.drop PayloadEncryptor.NONCE_SIZE).length - 16) →
        PayloadEncryptor.decrypt blob key = .error .decryptionFailed) ∧
      PayloadEncryptor.decrypt
          (PayloadEncryptor.encrypt []
            (PayloadEncryptor.derive_key_from_seal (List.replicate 32 1)) (List.range 12))
          (PayloadEncryptor.derive_key_from_seal (List.replicate 32 2)) =
        .error .decryptionFailed) :=
  ⟨by decide,
   claim_C7_encryption_roundtrip [1, 2, 3] (List.replicate 32 1) (List.range 12) (by decide)⟩

end Veilnet
